import Mathlib

/-!
Verification of the preprocessing pipeline of the Taxi_Tips_Predictions
repository (`src/preprocess.py`), via a shallow embedding in Lean 4.

Cells are `Option Val` (`none` models a missing value, NaN/NaT); a table is
an ordered association list of named columns, which is enough to model the
pandas DataFrame operations the code actually performs (column lookup and
assignment, `fillna`, `replace`, `mode`, `groupby(...).mean()`, boolean-mask
row filtering, `map`, `drop(axis=1)`).
-/

/-- A scalar cell value: a float (modelled by `ℚ`), a string, or a datetime
(seconds since the epoch, rational so fractional seconds exist). -/
inductive Val where
  | num : ℚ → Val
  | str : String → Val
  | dt  : ℚ → Val
deriving DecidableEq, Repr

/-- A cell of a column: `none` is a missing value (NaN / NaT). -/
abbrev Cell := Option Val

/-- Lexicographic comparison of character lists: the order pandas uses on
string values. -/
def charsLe : List Char → List Char → Bool
  | [], _ => true
  | _ :: _, [] => false
  | a :: as, b :: bs => if a = b then charsLe as bs else decide (a < b)

/-- Total comparison of values, as pandas sorts them: numbers by value,
strings lexicographically, datetimes chronologically (distinct kinds are
ordered by kind, which never mixes in the pipeline's columns). -/
def Val.leb : Val → Val → Bool
  | .num a, .num b => decide (a ≤ b)
  | .num _, _ => true
  | .str _, .num _ => false
  | .str a, .str b => charsLe a.data b.data
  | .str _, .dt _ => true
  | .dt a, .dt b => decide (a ≤ b)
  | .dt _, _ => false

/-- The sorting relation on values. -/
def ValLe (a b : Val) : Prop := Val.leb a b = true

instance : DecidableRel ValLe := fun a b =>
  inferInstanceAs (Decidable (Val.leb a b = true))

/-- The non-missing values of a column, in column order. -/
def colVals (c : List Cell) : List Val := c.filterMap id

/-- The distinct non-missing values of a column, sorted ascending.  This is
the index of `df.groupby(col)[target].mean()` (pandas sorts the group keys:
`sort=True` is the default), and also the order in which `Series.mode()`
lists tied modes. -/
def sortedKeys (c : List Cell) : List Val :=
  List.insertionSort ValLe (colVals c).dedup

/-- Model of `Series.mode()`: the non-missing values of maximal multiplicity, listed
in ascending order. -/
def modeList (c : List Cell) : List Val :=
  (sortedKeys c).filter fun k =>
    (colVals c).count k = ((sortedKeys c).map fun v => (colVals c).count v).foldr max 0

/-- Model of `Series.fillna(v)`: replace missing entries by `v`. -/
def fillna (c : List Cell) (v : Val) : List Cell :=
  c.map fun x => some (x.getD v)

/-- Model of `Series.replace(a, b)` for scalars: exact matches of `a` become `b`. -/
def replaceVal (c : List Cell) (a b : Val) : List Cell :=
  c.map fun x => if x = some a then some b else x

/-- Numeric content of a value, for target-column means. -/
def Val.asNum : Val → Option ℚ
  | .num q => some q
  | _ => none

/-- Mean of the non-missing numeric target entries of the rows whose key
column holds `k`; `none` (NaN) when the group has no such entry. -/
def groupMean (c tgt : List Cell) (k : Val) : Option ℚ :=
  let xs := (c.zip tgt).filterMap fun p =>
    if p.1 = some k then p.2.bind Val.asNum else none
  if xs = [] then none else some (xs.sum / xs.length)

/-- Model of `df.groupby(col)[target].mean()`: the group keys sorted ascending (the
pandas default sorts by the key, not by the mean), each paired with its
group's target mean. -/
def groupbyMean (c tgt : List Cell) : List (Val × Option ℚ) :=
  (sortedKeys c).map fun k => (k, groupMean c tgt k)

/-- First index of `v` in a key list: the lookup performed by the
`label_mapper` dictionary of `object_transformation`. -/
def idxIn (v : Val) : List Val → Option ℕ
  | [] => none
  | k :: ks => if k = v then some 0 else (idxIn v ks).map (· + 1)

/-- Model of `Series.map(label_mapper)` where `label_mapper` sends the `i`-th entry of
`ks` to the integer label `i`; missing and unmapped values become missing. -/
def mapLabels (ks : List Val) (c : List Cell) : List Cell :=
  c.map fun x => x.bind fun v => (idxIn v ks).map fun i => Val.num i

/-- The exception classes distinguished by the `except` clauses of
`preprocess.py`: `FileNotFoundError`, `KeyError` (logged as
"Column(s) not found"), and the catch-all `except Exception` branch (which
is what an `IndexError` lands in). -/
inductive PrepError where
  | fileNotFound
  | keyError
  | genericError
deriving DecidableEq, Repr

/-- A pandas DataFrame: an ordered association list of named columns. -/
structure Table where
  cols : List (String × List Cell)
deriving DecidableEq, Repr

instance {ε α : Type} [DecidableEq ε] [DecidableEq α] :
    DecidableEq (Except ε α) := fun x y =>
  match x, y with
  | .ok a, .ok b =>
      if h : a = b then isTrue (h ▸ rfl)
      else isFalse fun hh => h (Except.ok.inj hh)
  | .error a, .error b =>
      if h : a = b then isTrue (h ▸ rfl)
      else isFalse fun hh => h (Except.error.inj hh)
  | .ok _, .error _ => isFalse fun h => Except.noConfusion h
  | .error _, .ok _ => isFalse fun h => Except.noConfusion h

namespace Table

/-- The column names, in order. -/
def names (t : Table) : List String := t.cols.map Prod.fst

/-- Model of `df[name]` as a total lookup: the first column named `name`. -/
def getCol (t : Table) (name : String) : Option (List Cell) :=
  (t.cols.find? fun p => p.1 == name).map Prod.snd

/-- Model of `df[name]`, raising `KeyError` when the column is absent. -/
def getColE (t : Table) (name : String) : Except PrepError (List Cell) :=
  match t.getCol name with
  | some c => .ok c
  | none => .error .keyError

/-- Model of `df[name] = c`: overwrite the column when present, append it otherwise. -/
def setCol (t : Table) (name : String) (c : List Cell) : Table :=
  if t.cols.any fun p => p.1 == name then
    ⟨t.cols.map fun p => if p.1 == name then (name, c) else p⟩
  else ⟨t.cols ++ [(name, c)]⟩

end Table

/-- Keep the cells whose mask entry is `true` (boolean-mask row selection). -/
def applyMask : List Bool → List Cell → List Cell
  | true :: m, x :: c => x :: applyMask m c
  | false :: m, _ :: c => applyMask m c
  | _, _ => []

namespace Table

/-- Model of `df[mask]`: apply one boolean row mask to every column. -/
def filterMask (t : Table) (m : List Bool) : Table :=
  ⟨t.cols.map fun p => (p.1, applyMask m p.2)⟩

/-- Model of `df.drop(labels=names, axis=1)`: `KeyError` unless every label is a
column, else remove all so-named columns. -/
def dropColsE (t : Table) (dnames : List String) : Except PrepError Table :=
  if dnames.all (fun n => t.cols.any fun p => p.1 == n) then
    .ok ⟨t.cols.filter fun p => !(dnames.contains p.1)⟩
  else .error .keyError

end Table

/-- Python list indexing `l[i]`: an `IndexError` is not a `KeyError`, so it
lands in the generic `except Exception` branch. -/
def listGetE (l : List String) (i : ℕ) : Except PrepError String :=
  match l.get? i with
  | some s => .ok s
  | none => .error .genericError

/-- Model of `Series.mode()[0]`: position 0 of the mode Series.  When every entry of
the column is missing the mode Series is empty and the integer lookup —
label-based on the empty RangeIndex — raises `KeyError`. -/
def seriesMode0E (c : List Cell) : Except PrepError Val :=
  match (modeList c).head? with
  | some v => .ok v
  | none => .error .keyError

/-- Left fold of a fallible step over a list, stopping at the first raised
exception: the evaluation of a Python `for` loop whose body may raise. -/
def foldE (f : Table → String → Except PrepError Table) :
    Table → List String → Except PrepError Table
  | t, [] => .ok t
  | t, c :: cs =>
    match f t c with
    | .error e => .error e
    | .ok t' => foldE f t' cs

/-- One iteration of the `for col in discrete_columns` loop of
`discrete_transformation` (preprocess.py lines 37–39): look the column up
(`KeyError` when absent), take `mode()[0]`, fill missing entries with it. -/
def imputeCol (t : Table) (col : String) : Except PrepError Table :=
  match t.getColE col with
  | .error e => .error e
  | .ok c =>
    match seriesMode0E c with
    | .error e => .error e
    | .ok m => .ok (t.setCol col (fillna c m))

/-- The `try:` body of `discrete_transformation` (lines 36–42): impute every
listed column with its mode, then in the column at list index 1 replace the
exact value 0 by 1. -/
def discreteBody (df : Table) (cols : List String) : Except PrepError Table :=
  match foldE imputeCol df cols with
  | .error e => .error e
  | .ok t =>
    match listGetE cols 1 with
    | .error e => .error e
    | .ok c1 =>
      match t.getColE c1 with
      | .error e => .error e
      | .ok d => .ok (t.setCol c1 (replaceVal d (Val.num 0) (Val.num 1)))

/-- Model of `discrete_transformation` (lines 34–46): the body's exceptions are all
caught and logged, and the function then returns `None`; the caller only
observes the optional result. -/
def discrete_transformation (df : Table) (cols : List String) : Option Table :=
  (discreteBody df cols).toOption

/-- One iteration of the first loop of `object_transformation` (lines
55–57): `var = data.groupby(col)[target_col].mean().index[1]` — position 1
of the key-sorted group index, an `IndexError` (generic branch) when there
are fewer than two groups — then `data[col] = data[col].fillna(var)`. -/
def objFillStep (tgt : String) (t : Table) (col : String) :
    Except PrepError Table :=
  match t.getColE col with
  | .error e => .error e
  | .ok c =>
    match t.getColE tgt with
    | .error e => .error e
    | .ok ctg =>
      match (groupbyMean c ctg).get? 1 with
      | none => .error .genericError
      | some kv => .ok (t.setCol col (fillna c kv.1))

/-- One iteration of the second loop of `object_transformation` (lines
60–62): build `label_mapper` by enumerating the key-sorted group index and
map the column through it. -/
def objLabelStep (tgt : String) (t : Table) (col : String) :
    Except PrepError Table :=
  match t.getColE col with
  | .error e => .error e
  | .ok c =>
    match t.getColE tgt with
    | .error e => .error e
    | .ok ctg =>
      .ok (t.setCol col (mapLabels ((groupbyMean c ctg).map Prod.fst) c))

/-- The `try:` body of `object_transformation` (lines 52–65). -/
def objectBody (df : Table) (cols : List String) (tgt : String) :
    Except PrepError Table :=
  match foldE (objFillStep tgt) df cols with
  | .error e => .error e
  | .ok t1 => foldE (objLabelStep tgt) t1 cols

/-- Model of `object_transformation` (lines 50–69): exceptions are caught and logged,
`None` is returned. -/
def object_transformation (df : Table) (cols : List String) (tgt : String) :
    Option Table :=
  (objectBody df cols tgt).toOption

/-- Elementwise `!= 0` (pandas semantics: a missing value is not equal to
0, so NaN rows survive a `!= 0` filter). -/
def cellNe0 (x : Cell) : Bool := decide (x ≠ some (Val.num 0))

/-- Elementwise `!=` between two columns (pandas semantics: comparisons
involving NaN are not-equal, so such rows survive). -/
def cellNe (x y : Cell) : Bool :=
  match x, y with
  | some a, some b => decide (a ≠ b)
  | _, _ => true

/-- One entry of `(df[d1] - df[d0]).dt.total_seconds() / 60`: the datetime
difference in fractional minutes; missing or non-datetime operands give a
missing result. -/
def durationCell (x y : Cell) : Cell :=
  match x, y with
  | some (.dt a), some (.dt b) => some (.num ((a - b) / 60))
  | _, _ => none

/-- One entry of an elementwise numeric subtraction, NaN-propagating. -/
def subCell (x y : Cell) : Cell :=
  match x, y with
  | some (.num a), some (.num b) => some (.num (a - b))
  | _, _ => none

/-- The three sequential row filters of `feature_engineering` (lines 78–80):
each later filter sees only the rows surviving the earlier ones. -/
def rowFilters (t : Table) (f0 f3 f1 f2 : String) : Except PrepError Table :=
  match t.getColE f0 with
  | .error e => .error e
  | .ok c0 =>
    let t1 := t.filterMask (c0.map cellNe0)
    match t1.getColE f3 with
    | .error e => .error e
    | .ok c3 =>
      let t2 := t1.filterMask (c3.map cellNe0)
      match t2.getColE f1 with
      | .error e => .error e
      | .ok ca =>
        match t2.getColE f2 with
        | .error e => .error e
        | .ok cb => .ok (t2.filterMask (List.zipWith cellNe ca cb))

/-- The `try:` body of `feature_engineering` (lines 75–89): three sequential
row filters, three derived columns, then the datetime columns dropped. -/
def featureBody (data : Table) (fcols dcols disccols : List String) :
    Except PrepError Table :=
  match listGetE fcols 0 with
  | .error e => .error e
  | .ok f0 =>
    match listGetE fcols 3 with
    | .error e => .error e
    | .ok f3 =>
      match listGetE fcols 1 with
      | .error e => .error e
      | .ok f1 =>
        match listGetE fcols 2 with
        | .error e => .error e
        | .ok f2 =>
          match rowFilters data f0 f3 f1 f2 with
          | .error e => .error e
          | .ok tF =>
            match listGetE dcols 1 with
            | .error e => .error e
            | .ok d1 =>
              match listGetE dcols 0 with
              | .error e => .error e
              | .ok d0 =>
                match tF.getColE d1 with
                | .error e => .error e
                | .ok cd1 =>
                  match tF.getColE d0 with
                  | .error e => .error e
                  | .ok cd0 =>
                    let t4 := tF.setCol "duration"
                      (List.zipWith durationCell cd1 cd0)
                    match t4.getColE f3 with
                    | .error e => .error e
                    | .ok cf3 =>
                      match t4.getColE f1 with
                      | .error e => .error e
                      | .ok cf1 =>
                        let t5 := t4.setCol "fare_per_dist"
                          (List.zipWith subCell cf3 cf1)
                        match t5.getColE f3 with
                        | .error e => .error e
                        | .ok cf3b =>
                          match listGetE disccols 1 with
                          | .error e => .error e
                          | .ok p1 =>
                            match t5.getColE p1 with
                            | .error e => .error e
                            | .ok cp1 =>
                              let t6 := t5.setCol "fare_per_passenger"
                                (List.zipWith subCell cf3b cp1)
                              t6.dropColsE dcols

/-- Model of `feature_engineering` (lines 73–93): exceptions are caught and logged,
`None` is returned. -/
def feature_engineering (data : Table) (fcols dcols disccols : List String) :
    Option Table :=
  (featureBody data fcols dcols disccols).toOption

/-- The file system visible to `read_data`, as a map from paths to the
parquet tables stored there (`none`: no file at that path). -/
def FileSys := String → Option Table

/-- The `try:` body of `read_data` (line 24): `pd.read_parquet` raises
`FileNotFoundError` when the path does not exist. -/
def readBody (fs : FileSys) (path : String) : Except PrepError Table :=
  match fs path with
  | some t => .ok t
  | none => .error .fileNotFound

/-- Model of `read_data` (lines 22–30): the error is caught and logged, `None` is
returned. -/
def read_data (fs : FileSys) (path : String) : Option Table :=
  (readBody fs path).toOption

/-- Python-level heap of DataFrame objects.  Variables hold references, so
a stage that wrote through its argument's reference (instead of through a
fresh `.copy()`) would be observable here. -/
abbrev Heap := List Table

/-- A reference into the heap. -/
abbrev Ref := ℕ

/-- Allocate a fresh object, returning the new heap and its reference. -/
def Heap.alloc (h : Heap) (t : Table) : Heap × Ref := (h ++ [t], h.length)

/-- Dereference (a dangling reference yields an empty table). -/
def Heap.deref (h : Heap) (r : Ref) : Table := h.getD r ⟨[]⟩

/-- Overwrite the object at `r`. -/
def Heap.write (h : Heap) (r : Ref) (t : Table) : Heap := h.set r t

/-- Reference-level run of one pipeline stage: each of
`discrete_transformation`, `object_transformation` and
`feature_engineering` first binds a fresh copy of its argument
(`X = df.copy()`, preprocess.py lines 36, 52 and 75), every later column
assignment — including the `inplace=True` drop of line 87 — mutates only
that fresh object, and the stage returns the fresh reference (`none` after
a caught exception). -/
def runStage (body : Table → Except PrepError Table) (h : Heap) (r : Ref) :
    Heap × Option Ref :=
  let h1 := (h.alloc (h.deref r)).1
  let r1 := (h.alloc (h.deref r)).2
  match body (h1.deref r1) with
  | .ok t => (h1.write r1 t, some r1)
  | .error _ => (h1, none)

/-- Run of `discrete_transformation` at the reference level. -/
def discrete_transformation_ref (h : Heap) (r : Ref) (cols : List String) :
    Heap × Option Ref :=
  runStage (fun t => discreteBody t cols) h r

/-- Run of `object_transformation` at the reference level. -/
def object_transformation_ref (h : Heap) (r : Ref) (cols : List String)
    (tgt : String) : Heap × Option Ref :=
  runStage (fun t => objectBody t cols tgt) h r

/-- Run of `feature_engineering` at the reference level. -/
def feature_engineering_ref (h : Heap) (r : Ref)
    (fcols dcols disccols : List String) : Heap × Option Ref :=
  runStage (fun t => featureBody t fcols dcols disccols) h r

/-- The fill value `object_transformation` computes at line 56:
`data.groupby(col)[target_col].mean().index[1]`, i.e. position 1 of the
key-sorted group index. -/
def codeFillValue (c tgt : List Cell) : Option Val :=
  ((groupbyMean c tgt).map Prod.fst).get? 1

/-- Comparison of optional group means, missing (NaN) mean last; used only
by the spec-modelled ordering below. -/
def optMeanLeB : Option ℚ → Option ℚ → Bool
  | some a, some b => decide (a ≤ b)
  | none, some _ => false
  | _, _ => true

/-- Spec-modelled ordering of `(key, mean)` pairs by mean ascending. -/
def MeanLe (p q : Val × Option ℚ) : Prop := optMeanLeB p.2 q.2 = true

instance : DecidableRel MeanLe := fun p q =>
  inferInstanceAs (Decidable (optMeanLeB p.2 q.2 = true))

/-- Modelled from the spec (§4.3 step 1): "the ordered list of group keys
sorted by that mean ascending" — the ordering from which the spec says the
fill value (ordinal position 1) and the labels are taken. -/
def specMeanKeys (c tgt : List Cell) : List Val :=
  (List.insertionSort MeanLe (groupbyMean c tgt)).map Prod.fst

/-- Modelled from the spec (§4.3 step 2): "the key at ordinal position 1
(the second-lowest-mean group)" used as the fill value. -/
def specFillValue (c tgt : List Cell) : Option Val :=
  (specMeanKeys c tgt).get? 1

/-- Modelled from the spec (§4.2): the mode with "tie-break = first value
encountered in natural column order". -/
def specModeFirst (c : List Cell) : Option Val :=
  (colVals c).find? fun v =>
    (colVals c).count v =
      ((sortedKeys c).map fun k => (colVals c).count k).foldr max 0

/-- C1's table: categorical column `v` with group means a ↦ 5, b ↦ 20,
c ↦ 10 and one missing entry, target column `t`. -/
def exT1 : Table :=
  ⟨[("v", [some (Val.str "a"), some (Val.str "b"), some (Val.str "c"), none]),
    ("t", [some (Val.num 5), some (Val.num 20), some (Val.num 10),
           some (Val.num 0)])]⟩

/-- C1's categorical column. -/
def exC1v : List Cell :=
  [some (Val.str "a"), some (Val.str "b"), some (Val.str "c"), none]

/-- C1's target column. -/
def exC1t : List Cell :=
  [some (Val.num 5), some (Val.num 20), some (Val.num 10), some (Val.num 0)]

/-- C2's table: the spec's own scenario — `vendor` values with target means
A ↦ 10, B ↦ 5, C ↦ 20 (here lowercase, no missing entry, so only the
labelling is observed). -/
def exT2 : Table :=
  ⟨[("v", [some (Val.str "a"), some (Val.str "b"), some (Val.str "c")]),
    ("t", [some (Val.num 10), some (Val.num 5), some (Val.num 20)])]⟩

/-- C2's categorical column. -/
def exC2v : List Cell :=
  [some (Val.str "a"), some (Val.str "b"), some (Val.str "c")]

/-- C2's target column. -/
def exC2t : List Cell :=
  [some (Val.num 10), some (Val.num 5), some (Val.num 20)]

/-- C3's table: discrete column `a` with tied modes (2 occurs first, 1 is
smaller) and one missing entry; column `b` is the list-index-1 column. -/
def exT3 : Table :=
  ⟨[("a", [some (Val.num 2), some (Val.num 2), some (Val.num 1),
           some (Val.num 1), none]),
    ("b", [some (Val.num 7), some (Val.num 7), some (Val.num 7),
           some (Val.num 7), some (Val.num 7)])]⟩

/-- C3's discrete column. -/
def exC3a : List Cell :=
  [some (Val.num 2), some (Val.num 2), some (Val.num 1), some (Val.num 1),
   none]

/-- C4's table: the spec's scenario, `passenger_count` = `[1, 0, NaN, 2]`
at discrete-list index 1 (the `trip` column is the index-0 discrete
column). -/
def exT4 : Table :=
  ⟨[("trip", [some (Val.num 3), some (Val.num 3), some (Val.num 3),
              some (Val.num 3)]),
    ("pc", [some (Val.num 1), some (Val.num 0), none, some (Val.num 2)])]⟩

/-- C5/C6's table: four numeric columns, two datetime columns and a
discrete column; row 0 fails the `pickloc != droploc` filter, row 1 fails
the `fare != 0` filter, and row 2 survives. -/
def exT5 : Table :=
  ⟨[("fare", [some (Val.num 1), some (Val.num 0), some (Val.num 2)]),
    ("pickloc", [some (Val.num 2), some (Val.num 3), some (Val.num 5)]),
    ("droploc", [some (Val.num 2), some (Val.num 9), some (Val.num 6)]),
    ("total", [some (Val.num 4), some (Val.num 4), some (Val.num 7)]),
    ("pick_dt", [some (Val.dt 0), some (Val.dt 60), some (Val.dt 0)]),
    ("drop_dt", [some (Val.dt 120), some (Val.dt 60), some (Val.dt 90)]),
    ("pc", [some (Val.num 1), some (Val.num 1), some (Val.num 2)])]⟩

/-- C7's table: categorical column `v` with a single distinct group. -/
def exT7 : Table :=
  ⟨[("v", [some (Val.str "a"), some (Val.str "a")]),
    ("t", [some (Val.num 1), some (Val.num 2)])]⟩

/-- C10's table: listed discrete column `a` is entirely missing. -/
def exT10 : Table :=
  ⟨[("a", [none, none]),
    ("b", [some (Val.num 1), some (Val.num 1)])]⟩


namespace Table

theorem any_name_iff (t : Table) (n : String) :
    (t.cols.any fun p => p.1 == n) = true ↔ n ∈ t.names := by
  simp [List.any_eq_true, names, List.mem_map]

theorem getCol_eq_none_iff (t : Table) (n : String) :
    t.getCol n = none ↔ n ∉ t.names := by
  unfold getCol names
  rcases hf : t.cols.find? (fun p => p.1 == n) with _ | p <;> rw [hf]
  · simp only [Option.map_none', true_iff]
    intro hn
    rw [List.find?_eq_none] at hf
    rcases List.mem_map.mp hn with ⟨q, hq, rfl⟩
    exact hf q hq (beq_self_eq_true _)
  · simp only [Option.map_some']
    constructor
    · intro h; cases h
    · intro hn
      have hmem := List.mem_of_find?_eq_some hf
      have hpred : (p.1 == n) = true := by
        have h2 := List.find?_some hf
        simpa using h2
      exact absurd (List.mem_map.mpr ⟨p, hmem, beq_iff_eq.mp hpred⟩) hn

theorem getCol_isSome_iff (t : Table) (n : String) :
    (t.getCol n).isSome = true ↔ n ∈ t.names := by
  rcases h : t.getCol n with _ | c
  · simp only [Option.isSome_none, Bool.false_eq_true, false_iff]
    exact (t.getCol_eq_none_iff n).mp h
  · simp only [Option.isSome_some, true_iff]
    by_contra hn
    rw [(t.getCol_eq_none_iff n).mpr hn] at h
    cases h

theorem find?_setList_self (n : String) (c : List Cell) :
    ∀ l : List (String × List Cell),
      ((l.map fun p => if p.1 == n then (n, c) else p).find? fun p => p.1 == n) =
        ((l.find? fun p => p.1 == n).map fun _ => (n, c))
  | [] => rfl
  | p :: l => by
    rw [List.map_cons]
    by_cases hp : (p.1 == n) = true
    · rw [if_pos hp, List.find?_cons_of_pos, List.find?_cons_of_pos]
      · rfl
      · exact hp
      · exact beq_self_eq_true n
    · rw [if_neg hp, List.find?_cons_of_neg, List.find?_cons_of_neg]
      · exact find?_setList_self n c l
      · exact hp
      · exact hp

theorem find?_setList_ne {m n : String} (h : m ≠ n) (c : List Cell) :
    ∀ l : List (String × List Cell),
      ((l.map fun p => if p.1 == n then (n, c) else p).find? fun p => p.1 == m) =
        (l.find? fun p => p.1 == m)
  | [] => rfl
  | p :: l => by
    rw [List.map_cons]
    by_cases hp : (p.1 == n) = true
    · rw [if_pos hp]
      rw [List.find?_cons_of_neg, List.find?_cons_of_neg]
      · exact find?_setList_ne h c l
      · simp only [beq_iff_eq] at hp ⊢
        rw [hp]
        exact fun he => h he.symm
      · simp only [beq_iff_eq]
        exact fun he => h he.symm
    · rw [if_neg hp]
      by_cases hm : (p.1 == m) = true
      · rw [List.find?_cons_of_pos, List.find?_cons_of_pos]
        · exact hm
        · exact hm
      · rw [List.find?_cons_of_neg, List.find?_cons_of_neg]
        · exact find?_setList_ne h c l
        · exact hm
        · exact hm

theorem getCol_setCol_self (t : Table) (n : String) (c : List Cell) :
    (t.setCol n c).getCol n = some c := by
  unfold setCol
  by_cases h : (t.cols.any fun p => p.1 == n) = true
  · rw [if_pos h]
    show ((t.cols.map fun p => if p.1 == n then (n, c) else p).find?
      fun p => p.1 == n).map Prod.snd = some c
    rw [find?_setList_self]
    rcases List.any_eq_true.mp h with ⟨p, hp, hpn⟩
    rcases hsome : t.cols.find? (fun p => p.1 == n) with _ | q
    · rw [List.find?_eq_none] at hsome
      exact absurd hpn (hsome p hp)
    · rw [hsome]
      rfl
  · rw [if_neg h]
    show ((t.cols ++ [(n, c)]).find? fun p => p.1 == n).map Prod.snd = some c
    rw [List.find?_append]
    have hnone : t.cols.find? (fun p => p.1 == n) = none := by
      rw [List.find?_eq_none]
      intro p hp hpn
      exact h (List.any_eq_true.mpr ⟨p, hp, hpn⟩)
    rw [hnone]
    simp [List.find?]

theorem getCol_setCol_ne (t : Table) {m n : String} (h : m ≠ n) (c : List Cell) :
    (t.setCol n c).getCol m = t.getCol m := by
  unfold setCol
  by_cases ha : (t.cols.any fun p => p.1 == n) = true
  · rw [if_pos ha]
    show ((t.cols.map fun p => if p.1 == n then (n, c) else p).find?
      fun p => p.1 == m).map Prod.snd = _
    rw [find?_setList_ne h]
    rfl
  · rw [if_neg ha]
    show ((t.cols ++ [(n, c)]).find? fun p => p.1 == m).map Prod.snd = _
    rw [List.find?_append]
    have h1 : ([(n, c)].find? fun p => p.1 == m) = none := by
      rw [List.find?_eq_none]
      intro p hp hpn
      rcases List.mem_singleton.mp hp with rfl
      exact h (beq_iff_eq.mp hpn).symm
    rw [h1]
    simp only [Option.or_none]
    rfl

theorem names_setCol_mem (t : Table) {n : String} (h : n ∈ t.names)
    (c : List Cell) : (t.setCol n c).names = t.names := by
  unfold setCol
  rw [if_pos ((t.any_name_iff n).mpr h)]
  show List.map _ _ = _
  rw [List.map_map]
  apply List.map_congr_left
  intro p _
  by_cases hp : p.1 = n
  · simp [hp]
  · simp [hp]

theorem names_setCol_notMem (t : Table) {n : String} (h : n ∉ t.names)
    (c : List Cell) : (t.setCol n c).names = t.names ++ [n] := by
  unfold setCol
  rw [if_neg]
  · show List.map _ _ = _
    rw [List.map_append]
    rfl
  · intro ha
    exact h ((t.any_name_iff n).mp ha)

theorem getCol_filterMask (t : Table) (m : List Bool) (n : String) :
    (t.filterMask m).getCol n = (t.getCol n).map (applyMask m) := by
  unfold filterMask getCol
  induction t.cols with
  | nil => rfl
  | cons p l ih =>
    by_cases hp : p.1 = n
    · simp [List.find?, hp]
    · have hp' : (p.1 == n) = false := by simp [hp]
      simpa [List.find?, hp'] using ih

theorem names_filterMask (t : Table) (m : List Bool) :
    (t.filterMask m).names = t.names := by
  unfold filterMask names
  rw [List.map_map]
  rfl

end Table

theorem charsLe_refl : ∀ a : List Char, charsLe a a = true
  | [] => rfl
  | c :: l => by simp [charsLe, charsLe_refl l]

theorem valLe_refl (a : Val) : ValLe a a := by
  cases a <;> simp [ValLe, Val.leb, charsLe_refl]

theorem fillna_ne_none (c : List Cell) (v : Val) :
    ∀ x ∈ fillna c v, x ≠ none := by
  intro x hx
  rcases List.mem_map.mp hx with ⟨y, _, rfl⟩
  simp

theorem fillna_get? (c : List Cell) (v : Val) (i : ℕ) :
    (fillna c v).get? i = (c.get? i).map fun x => some (x.getD v) := by
  simp [fillna, List.get?_map]

theorem colVals_nil_of_nil : colVals ([] : List Cell) = [] := rfl

theorem fillna_colVals_ne_nil (c : List Cell) (v : Val) (h : colVals c ≠ []) :
    colVals (fillna c v) ≠ [] := by
  rcases c with _ | ⟨x, c⟩
  · exact absurd rfl h
  · rcases x with _ | y <;> simp [fillna, colVals, List.filterMap]

theorem replaceVal_ne_none (c : List Cell) (a b : Val)
    (h : ∀ x ∈ c, x ≠ none) : ∀ x ∈ replaceVal c a b, x ≠ none := by
  intro x hx
  rcases List.mem_map.mp hx with ⟨y, hy, rfl⟩
  by_cases hya : y = some a
  · simp [hya]
  · simpa [hya] using h y hy

theorem replaceVal_free (c : List Cell) :
    ∀ x ∈ replaceVal c (Val.num 0) (Val.num 1), x ≠ some (Val.num 0) := by
  intro x hx
  rcases List.mem_map.mp hx with ⟨y, _, rfl⟩
  by_cases hy : y = some (Val.num 0)
  · simp [hy]
  · simpa [hy] using hy

theorem charsLe_total : ∀ a b : List Char, charsLe a b = true ∨ charsLe b a = true
  | [], _ => Or.inl rfl
  | _ :: _, [] => Or.inr rfl
  | a :: as, b :: bs => by
    by_cases hab : a = b
    · subst hab
      rcases charsLe_total as bs with h | h
      · exact Or.inl (by simp [charsLe, h])
      · exact Or.inr (by simp [charsLe, h])
    · rcases lt_or_gt_of_ne hab with h | h
      · exact Or.inl (by simp [charsLe, hab, h])
      · exact Or.inr (by simp [charsLe, Ne.symm hab, h])

theorem charsLe_trans : ∀ a b c : List Char,
    charsLe a b = true → charsLe b c = true → charsLe a c = true
  | [], _, _ => fun _ _ => rfl
  | _ :: _, [], _ => by intro h; simp [charsLe] at h
  | _ :: _, _ :: _, [] => by intro _ h; simp [charsLe] at h
  | a :: as, b :: bs, c :: cs => by
    intro h1 h2
    by_cases hab : a = b <;> by_cases hbc : b = c
    · subst hab; subst hbc
      simp only [charsLe, if_pos rfl] at h1 h2 ⊢
      exact charsLe_trans as bs cs h1 h2
    · subst hab
      simp only [charsLe, if_pos rfl, if_neg hbc, decide_eq_true_iff] at h2 ⊢
      exact h2
    · subst hbc
      simp only [charsLe, if_neg hab, decide_eq_true_iff] at h1 ⊢
      exact h1
    · simp only [charsLe, if_neg hab, if_neg hbc, decide_eq_true_iff] at h1 h2
      have hac : a < c := lt_trans h1 h2
      simp [charsLe, ne_of_lt hac, hac]

instance : IsTotal Val ValLe := by
  constructor
  intro a b
  cases a <;> cases b <;>
    simp only [ValLe, Val.leb, decide_eq_true_iff] <;>
    first
      | exact Or.inl trivial
      | exact Or.inr trivial
      | exact le_total _ _
      | exact charsLe_total _ _

instance : IsTrans Val ValLe := by
  constructor
  intro a b c h1 h2
  cases a <;> cases b <;> cases c <;>
    simp_all only [ValLe, Val.leb, decide_eq_true_iff, Bool.false_eq_true] <;>
    first
      | trivial
      | exact le_trans h1 h2
      | exact charsLe_trans _ _ _ h1 h2

theorem sortedKeys_sorted (c : List Cell) :
    List.Sorted ValLe (sortedKeys c) :=
  List.sorted_insertionSort ValLe _

theorem sortedKeys_nodup (c : List Cell) : (sortedKeys c).Nodup :=
  (List.perm_insertionSort ValLe _).nodup_iff.mpr (List.nodup_dedup _)

theorem mem_sortedKeys {v : Val} {c : List Cell} :
    v ∈ sortedKeys c ↔ v ∈ colVals c := by
  unfold sortedKeys
  rw [List.mem_insertionSort, List.mem_dedup]

theorem foldr_max_mem : ∀ l : List ℕ, l ≠ [] → l.foldr max 0 ∈ l
  | [], h => absurd rfl h
  | a :: l, _ => by
    rcases l with _ | ⟨b, l'⟩
    · simp
    · rcases le_total a ((b :: l').foldr max 0) with h | h
      · rw [List.foldr_cons, max_eq_right h]
        exact List.mem_cons_of_mem _ (foldr_max_mem _ (by simp))
      · rw [List.foldr_cons, max_eq_left h]
        exact List.mem_cons_self _ _

theorem le_foldr_max : ∀ (l : List ℕ) (x : ℕ), x ∈ l → x ≤ l.foldr max 0
  | [], x, h => absurd h (List.not_mem_nil x)
  | a :: l, x, h => by
    rcases List.mem_cons.mp h with rfl | h
    · exact le_max_left _ _
    · exact le_trans (le_foldr_max l x h) (le_max_right _ _)

theorem modeList_ne_nil (c : List Cell) (h : colVals c ≠ []) :
    modeList c ≠ [] := by
  have hks : sortedKeys c ≠ [] := by
    intro he
    rcases List.exists_mem_of_ne_nil _ h with ⟨v, hv⟩
    have : v ∈ sortedKeys c := mem_sortedKeys.mpr hv
    rw [he] at this
    exact List.not_mem_nil v this
  have hmap : ((sortedKeys c).map fun v => (colVals c).count v) ≠ [] := by
    simpa using hks
  have hmem := foldr_max_mem _ hmap
  rcases List.mem_map.mp hmem with ⟨k, hk, hck⟩
  intro he
  have : k ∈ modeList c := by
    unfold modeList
    rw [List.mem_filter]
    exact ⟨hk, by rw [hck]; simp⟩
  rw [he] at this
  exact List.not_mem_nil k this

theorem seriesMode0E_ok (c : List Cell) (h : colVals c ≠ []) :
    ∃ m, seriesMode0E c = .ok m := by
  unfold seriesMode0E
  rcases hh : (modeList c).head? with _ | m
  · exact absurd (List.head?_eq_none_iff.mp hh) (modeList_ne_nil c h)
  · exact ⟨m, rfl⟩

theorem seriesMode0E_spec (c : List Cell) (m : Val)
    (h : seriesMode0E c = .ok m) :
    m ∈ colVals c ∧
    (∀ v ∈ colVals c, (colVals c).count v ≤ (colVals c).count m) ∧
    (∀ v ∈ colVals c, (colVals c).count v = (colVals c).count m → ValLe m v) := by
  unfold seriesMode0E at h
  rcases hlist : modeList c with _ | ⟨m0, rest⟩
  · rw [hlist] at h
    cases h
  · rw [hlist] at h
    simp only [List.head?_cons] at h
    have hm0 : m0 = m := Except.ok.inj h
    subst hm0
    have hmem : m0 ∈ modeList c := by
      rw [hlist]
      exact List.mem_cons_self _ _
    have hfil := List.mem_filter.mp (by unfold modeList at hmem; exact hmem)
    have hcnt : (colVals c).count m0 =
        ((sortedKeys c).map fun v => (colVals c).count v).foldr max 0 := by
      have h2 := hfil.2
      simpa using h2
    refine ⟨mem_sortedKeys.mp hfil.1, ?_, ?_⟩
    · intro v hv
      rw [hcnt]
      exact le_foldr_max _ _ (List.mem_map.mpr ⟨v, mem_sortedKeys.mpr hv, rfl⟩)
    · intro v hv hveq
      have hvmem : v ∈ modeList c := by
        unfold modeList
        rw [List.mem_filter]
        refine ⟨mem_sortedKeys.mpr hv, ?_⟩
        rw [hveq, hcnt]
        simp
      rw [hlist] at hvmem
      rcases List.mem_cons.mp hvmem with rfl | hvrest
      · exact valLe_refl v
      · have hsorted : List.Sorted ValLe (modeList c) :=
          List.Pairwise.sublist (List.filter_sublist _) (sortedKeys_sorted c)
        rw [hlist] at hsorted
        exact List.rel_of_sorted_cons hsorted v hvrest

theorem idxIn_lt_length {v : Val} :
    ∀ {ks : List Val} {j : ℕ}, idxIn v ks = some j → j < ks.length := by
  intro ks
  induction ks with
  | nil => intro j h; cases h
  | cons k ks ih =>
    intro j h
    unfold idxIn at h
    by_cases hk : k = v
    · rw [if_pos hk] at h
      cases h
      simp
    · rw [if_neg hk] at h
      rcases hj : idxIn v ks with _ | j'
      · rw [hj] at h; cases h
      · rw [hj] at h
        cases h
        simpa using ih hj

theorem idxIn_get? {v : Val} :
    ∀ {ks : List Val} {j : ℕ}, idxIn v ks = some j → ks.get? j = some v := by
  intro ks
  induction ks with
  | nil => intro j h; cases h
  | cons k ks ih =>
    intro j h
    unfold idxIn at h
    by_cases hk : k = v
    · rw [if_pos hk] at h
      cases h
      simpa using hk
    · rw [if_neg hk] at h
      rcases hj : idxIn v ks with _ | j'
      · rw [hj] at h; cases h
      · rw [hj] at h
        cases h
        simpa using ih hj

theorem idxIn_of_mem {v : Val} :
    ∀ {ks : List Val}, v ∈ ks → ∃ j, idxIn v ks = some j := by
  intro ks
  induction ks with
  | nil => intro h; exact absurd h (List.not_mem_nil v)
  | cons k ks ih =>
    intro h
    by_cases hk : k = v
    · exact ⟨0, by unfold idxIn; rw [if_pos hk]⟩
    · rcases List.mem_cons.mp h with rfl | h'
      · exact absurd rfl hk
      · rcases ih h' with ⟨j, hj⟩
        exact ⟨j + 1, by unfold idxIn; rw [if_neg hk, hj]; rfl⟩

theorem idxIn_of_nodup_get? {v : Val} :
    ∀ {ks : List Val} {j : ℕ}, ks.Nodup → ks.get? j = some v →
      idxIn v ks = some j := by
  intro ks
  induction ks with
  | nil => intro j _ h; cases h
  | cons k ks ih =>
    intro j hnd h
    rcases j with _ | j'
    · have hk : k = v := by simpa using h
      unfold idxIn
      rw [if_pos hk]
    · have hgt : ks.get? j' = some v := by simpa using h
      have hvm : v ∈ ks := List.get?_mem hgt
      have hk : k ≠ v := by
        intro he
        subst he
        exact (List.nodup_cons.mp hnd).1 hvm
      unfold idxIn
      rw [if_neg hk, ih (List.nodup_cons.mp hnd).2 hgt]
      rfl

theorem applyMask_nil_mask : ∀ c : List Cell, applyMask [] c = [] := by
  intro c
  cases c <;> rfl

theorem applyMask_nil_cells : ∀ m : List Bool, applyMask m [] = [] := by
  intro m
  cases m with
  | nil => rfl
  | cons b m => cases b <;> rfl

theorem applyMask_cons_true (m : List Bool) (x : Cell) (c : List Cell) :
    applyMask (true :: m) (x :: c) = x :: applyMask m c := rfl

theorem applyMask_cons_false (m : List Bool) (x : Cell) (c : List Cell) :
    applyMask (false :: m) (x :: c) = applyMask m c := rfl

theorem mem_applyMask {x : Cell} :
    ∀ {m : List Bool} {c : List Cell}, x ∈ applyMask m c → x ∈ c := by
  intro m
  induction m with
  | nil => intro c h; rw [applyMask_nil_mask] at h; cases h
  | cons b m ih =>
    intro c h
    rcases c with _ | ⟨y, c⟩
    · rw [applyMask_nil_cells] at h; cases h
    · rcases b with _ | _
      · exact List.mem_cons_of_mem _ (ih h)
      · rcases List.mem_cons.mp h with rfl | h'
        · exact List.mem_cons_self _ _
        · exact List.mem_cons_of_mem _ (ih h')

theorem applyMask_self_pred (p : Cell → Bool) :
    ∀ c : List Cell, ∀ x ∈ applyMask (c.map p) c, p x = true := by
  intro c
  induction c with
  | nil => intro x h; cases h
  | cons y c ih =>
    intro x h
    rw [List.map_cons] at h
    rcases hp : p y with _ | _
    · rw [hp] at h
      exact ih x h
    · rw [hp] at h
      rcases List.mem_cons.mp h with rfl | h'
      · exact hp
      · exact ih x h'

theorem zip_applyMask_cellNe :
    ∀ ca cb : List Cell,
      ∀ q ∈ (applyMask (List.zipWith cellNe ca cb) ca).zip
              (applyMask (List.zipWith cellNe ca cb) cb),
        cellNe q.1 q.2 = true
  | [], cb => by
    intro q h
    simp only [List.zipWith_nil_left, applyMask_nil_mask] at h
    simp at h
  | a :: ca, [] => by
    intro q h
    simp only [List.zipWith_nil_right, applyMask_nil_mask] at h
    simp at h
  | a :: ca, b :: cb => by
    intro q h
    rw [List.zipWith_cons_cons] at h
    rcases hab : cellNe a b with _ | _
    · rw [hab, applyMask_cons_false, applyMask_cons_false] at h
      exact zip_applyMask_cellNe ca cb q h
    · rw [hab, applyMask_cons_true, applyMask_cons_true, List.zip_cons_cons] at h
      rcases List.mem_cons.mp h with rfl | h'
      · exact hab
      · exact zip_applyMask_cellNe ca cb q h'

theorem imputeCol_ok (t : Table) (col : String) (c : List Cell) (m : Val)
    (hc : t.getCol col = some c) (hm : seriesMode0E c = .ok m) :
    imputeCol t col = .ok (t.setCol col (fillna c m)) := by
  unfold imputeCol Table.getColE
  rw [hc]
  dsimp only
  rw [hm]

theorem imputeCol_err_missing (t : Table) (col : String)
    (hc : t.getCol col = none) : imputeCol t col = .error .keyError := by
  unfold imputeCol Table.getColE
  rw [hc]

theorem imputeCol_ok_inv (t : Table) (col : String) (t' : Table)
    (h : imputeCol t col = .ok t') :
    ∃ c m, t.getCol col = some c ∧ seriesMode0E c = .ok m ∧
      t' = t.setCol col (fillna c m) := by
  unfold imputeCol Table.getColE at h
  rcases hc : t.getCol col with _ | c
  · rw [hc] at h; cases h
  · rw [hc] at h
    dsimp only at h
    rcases hm : seriesMode0E c with e | m
    · rw [hm] at h; cases h
    · rw [hm] at h
      exact ⟨c, m, rfl, hm, (Except.ok.inj h).symm⟩

theorem seriesMode0E_allMissing (c : List Cell) (h : colVals c = []) :
    seriesMode0E c = .error .keyError := by
  unfold seriesMode0E modeList sortedKeys
  rw [h]
  rfl

theorem foldE_imputeCol_ok :
    ∀ (cols : List String) (t : Table),
      (∀ c ∈ cols, ∃ d, t.getCol c = some d ∧ colVals d ≠ []) →
      ∃ t', foldE imputeCol t cols = .ok t' ∧
        (∀ n, n ∉ cols → t'.getCol n = t.getCol n) ∧
        (∀ c ∈ cols, ∃ d, t'.getCol c = some d ∧
          (∀ x ∈ d, x ≠ none) ∧ colVals d ≠ [])
  | [], t => fun _ =>
      ⟨t, rfl, fun _ _ => rfl, fun c hc => absurd hc (List.not_mem_nil c)⟩
  | a :: rest, t => by
    intro h
    rcases h a (List.mem_cons_self a rest) with ⟨da, hda, hvda⟩
    rcases seriesMode0E_ok da hvda with ⟨m, hm⟩
    have hstep := imputeCol_ok t a da m hda hm
    set t1 := t.setCol a (fillna da m) with ht1
    have hrest : ∀ c ∈ rest, ∃ d, t1.getCol c = some d ∧ colVals d ≠ [] := by
      intro c hc
      by_cases hca : c = a
      · subst hca
        exact ⟨fillna da m, t.getCol_setCol_self c _,
          fillna_colVals_ne_nil da m hvda⟩
      · rw [ht1, t.getCol_setCol_ne hca]
        exact h c (List.mem_cons_of_mem a hc)
    rcases foldE_imputeCol_ok rest t1 hrest with ⟨t', hfold, hunch, hprops⟩
    refine ⟨t', ?_, ?_, ?_⟩
    · unfold foldE
      rw [hstep]
      exact hfold
    · intro n hn
      have hna : n ≠ a := fun he => hn (he ▸ List.mem_cons_self a rest)
      rw [hunch n fun hr => hn (List.mem_cons_of_mem a hr), ht1,
        t.getCol_setCol_ne hna]
    · intro c hc
      rcases List.mem_cons.mp hc with rfl | hcr
      · by_cases hcrest : c ∈ rest
        · exact hprops c hcrest
        · rw [hunch c hcrest, ht1]
          exact ⟨fillna da m, t.getCol_setCol_self c _,
            fillna_ne_none da m, fillna_colVals_ne_nil da m hvda⟩
      · exact hprops c hcr

theorem foldE_imputeCol_allMissing :
    ∀ (cols : List String) (t : Table),
      (∀ c ∈ cols, ∃ d, t.getCol c = some d) →
      (∃ c ∈ cols, ∃ d, t.getCol c = some d ∧ colVals d = []) →
      foldE imputeCol t cols = .error .keyError
  | [], t => by
    rintro _ ⟨c, hc, _⟩
    exact absurd hc (List.not_mem_nil c)
  | a :: rest, t => by
    rintro hall ⟨c, hcmem, d, hd, hdall⟩
    rcases hall a (List.mem_cons_self a rest) with ⟨da, hda⟩
    by_cases hvda : colVals da = []
    · have hstep : imputeCol t a = .error .keyError := by
        unfold imputeCol Table.getColE
        rw [hda]
        dsimp only
        rw [seriesMode0E_allMissing da hvda]
      unfold foldE
      rw [hstep]
    · have hca : c ≠ a := by
        rintro rfl
        rw [hda] at hd
        cases hd
        exact hvda hdall
      have hcr : c ∈ rest := by
        rcases List.mem_cons.mp hcmem with rfl | h
        · exact absurd rfl hca
        · exact h
      rcases seriesMode0E_ok da hvda with ⟨m, hm⟩
      have hstep := imputeCol_ok t a da m hda hm
      set t1 := t.setCol a (fillna da m) with ht1
      have hall1 : ∀ c' ∈ rest, ∃ d', t1.getCol c' = some d' := by
        intro c' hc'
        by_cases hc'a : c' = a
        · subst hc'a
          exact ⟨fillna da m, t.getCol_setCol_self c' _⟩
        · rw [ht1, t.getCol_setCol_ne hc'a]
          exact hall c' (List.mem_cons_of_mem a hc')
      have hwit1 : ∃ c' ∈ rest, ∃ d', t1.getCol c' = some d' ∧ colVals d' = [] := by
        refine ⟨c, hcr, d, ?_, hdall⟩
        rw [ht1, t.getCol_setCol_ne hca]
        exact hd
      unfold foldE
      rw [hstep]
      exact foldE_imputeCol_allMissing rest t1 hall1 hwit1

theorem foldE_missing_error (f : Table → String → Except PrepError Table)
    (hf_err : ∀ t c, t.getCol c = none → ∃ e, f t c = .error e)
    (hf_pres : ∀ t c t', f t c = .ok t' →
      ∀ n, t.getCol n = none → t'.getCol n = none) :
    ∀ (cols : List String) (t : Table) (c : String), c ∈ cols →
      t.getCol c = none → ∃ e, foldE f t cols = .error e
  | [], t, c => fun hc _ => absurd hc (List.not_mem_nil c)
  | a :: rest, t, c => by
    intro hcmem hc
    rcases hstep : f t a with e | t1
    · exact ⟨e, by unfold foldE; rw [hstep]⟩
    · have hca : c ≠ a := by
        rintro rfl
        rcases hf_err t c hc with ⟨e, he⟩
        rw [he] at hstep
        cases hstep
      have hcr : c ∈ rest := by
        rcases List.mem_cons.mp hcmem with rfl | h
        · exact absurd rfl hca
        · exact h
      rcases foldE_missing_error f hf_err hf_pres rest t1 c hcr
        (hf_pres t a t1 hstep c hc) with ⟨e, he⟩
      exact ⟨e, by unfold foldE; rw [hstep]; exact he⟩

theorem imputeCol_pres_missing (t : Table) (a : String) (t' : Table)
    (h : imputeCol t a = .ok t') :
    ∀ n, t.getCol n = none → t'.getCol n = none := by
  intro n hn
  rcases imputeCol_ok_inv t a t' h with ⟨c, m, hc, _, rfl⟩
  have hna : n ≠ a := by
    rintro rfl
    rw [hc] at hn
    cases hn
  rw [t.getCol_setCol_ne hna]
  exact hn

theorem groupbyMean_keys (c tgt : List Cell) :
    (groupbyMean c tgt).map Prod.fst = sortedKeys c := by
  unfold groupbyMean
  generalize sortedKeys c = ks
  induction ks with
  | nil => rfl
  | cons k ks ih => rw [List.map_cons, List.map_cons, ih]

theorem objFillStep_ok (tgt : String) (t : Table) (col : String)
    (c ctg : List Cell) (kv : Val × Option ℚ)
    (hc : t.getCol col = some c) (ht : t.getCol tgt = some ctg)
    (hk : (groupbyMean c ctg).get? 1 = some kv) :
    objFillStep tgt t col = .ok (t.setCol col (fillna c kv.1)) := by
  unfold objFillStep Table.getColE
  rw [hc]
  dsimp only
  rw [ht]
  dsimp only
  rw [hk]

theorem objFillStep_fewGroups (tgt : String) (t : Table) (col : String)
    (c ctg : List Cell)
    (hc : t.getCol col = some c) (ht : t.getCol tgt = some ctg)
    (hk : (groupbyMean c ctg).get? 1 = none) :
    objFillStep tgt t col = .error .genericError := by
  unfold objFillStep Table.getColE
  rw [hc]
  dsimp only
  rw [ht]
  dsimp only
  rw [hk]

theorem objFillStep_err_missing (tgt : String) (t : Table) (col : String)
    (hc : t.getCol col = none) : objFillStep tgt t col = .error .keyError := by
  unfold objFillStep Table.getColE
  rw [hc]

theorem objFillStep_ok_inv (tgt : String) (t : Table) (col : String)
    (t' : Table) (h : objFillStep tgt t col = .ok t') :
    ∃ c ctg kv, t.getCol col = some c ∧ t.getCol tgt = some ctg ∧
      (groupbyMean c ctg).get? 1 = some kv ∧
      t' = t.setCol col (fillna c kv.1) := by
  unfold objFillStep Table.getColE at h
  rcases hc : t.getCol col with _ | c
  · rw [hc] at h; cases h
  · rw [hc] at h
    dsimp only at h
    rcases ht : t.getCol tgt with _ | ctg
    · rw [ht] at h; cases h
    · rw [ht] at h
      dsimp only at h
      rcases hk : (groupbyMean c ctg).get? 1 with _ | kv
      · rw [hk] at h; cases h
      · rw [hk] at h
        exact ⟨c, ctg, kv, rfl, rfl, hk, (Except.ok.inj h).symm⟩

theorem objLabelStep_ok (tgt : String) (t : Table) (col : String)
    (c ctg : List Cell)
    (hc : t.getCol col = some c) (ht : t.getCol tgt = some ctg) :
    objLabelStep tgt t col =
      .ok (t.setCol col (mapLabels ((groupbyMean c ctg).map Prod.fst) c)) := by
  unfold objLabelStep Table.getColE
  rw [hc]
  dsimp only
  rw [ht]

theorem objLabelStep_err_missing (tgt : String) (t : Table) (col : String)
    (hc : t.getCol col = none) : objLabelStep tgt t col = .error .keyError := by
  unfold objLabelStep Table.getColE
  rw [hc]

theorem objLabelStep_ok_inv (tgt : String) (t : Table) (col : String)
    (t' : Table) (h : objLabelStep tgt t col = .ok t') :
    ∃ c ctg, t.getCol col = some c ∧ t.getCol tgt = some ctg ∧
      t' = t.setCol col (mapLabels ((groupbyMean c ctg).map Prod.fst) c) := by
  unfold objLabelStep Table.getColE at h
  rcases hc : t.getCol col with _ | c
  · rw [hc] at h; cases h
  · rw [hc] at h
    dsimp only at h
    rcases ht : t.getCol tgt with _ | ctg
    · rw [ht] at h; cases h
    · rw [ht] at h
      dsimp only at h
      exact ⟨c, ctg, rfl, rfl, (Except.ok.inj h).symm⟩

theorem objFillStep_pres_missing (tgt : String) (t : Table) (a : String)
    (t' : Table) (h : objFillStep tgt t a = .ok t') :
    ∀ n, t.getCol n = none → t'.getCol n = none := by
  intro n hn
  rcases objFillStep_ok_inv tgt t a t' h with ⟨c, ctg, kv, hc, _, _, rfl⟩
  have hna : n ≠ a := by
    rintro rfl
    rw [hc] at hn
    cases hn
  rw [t.getCol_setCol_ne hna]
  exact hn

theorem objLabelStep_pres_missing (tgt : String) (t : Table) (a : String)
    (t' : Table) (h : objLabelStep tgt t a = .ok t') :
    ∀ n, t.getCol n = none → t'.getCol n = none := by
  intro n hn
  rcases objLabelStep_ok_inv tgt t a t' h with ⟨c, ctg, hc, _, rfl⟩
  have hna : n ≠ a := by
    rintro rfl
    rw [hc] at hn
    cases hn
  rw [t.getCol_setCol_ne hna]
  exact hn

/-- C1 (counterexample): at `exT1` the fill value `object_transformation`
computes at line 56 is "b", the key at position 1 of the KEY-sorted group
index, whereas the key at ordinal position 1 of the keys sorted by
target-column mean ascending is "c" — so the claim's fill rule does not
describe the code; the missing entry ends up with b's label 1. -/
theorem C1_counterexample :
    codeFillValue exC1v exC1t = some (Val.str "b") ∧
    specFillValue exC1v exC1t = some (Val.str "c") ∧
    (some (Val.str "b") : Option Val) ≠ some (Val.str "c") ∧
    objFillStep "t" exT1 "v" =
      .ok (exT1.setCol "v" (fillna exC1v (Val.str "b"))) ∧
    object_transformation exT1 ["v"] "t" =
      some ⟨[("v", [some (Val.num 0), some (Val.num 1), some (Val.num 2),
                    some (Val.num 1)]),
             ("t", exC1t)]⟩ :=
  ⟨by decide, by with_unfolding_all decide, by decide, by decide, by decide⟩

/-- C1 (amended): for every table and categorical column, the first loop of
`object_transformation` fills each missing entry of the column with the
group key at ordinal position 1 of the group index sorted ascending BY KEY
(the pandas `groupby` default order) — the second-smallest key, not the
second-lowest-mean key. -/
theorem C1_fill_uses_second_smallest_key (t : Table) (col tgt : String)
    (c ctg : List Cell) (k : Val)
    (hc : t.getCol col = some c) (ht : t.getCol tgt = some ctg)
    (hk : (sortedKeys c).get? 1 = some k) :
    objFillStep tgt t col = .ok (t.setCol col (fillna c k)) ∧
    List.Sorted ValLe (sortedKeys c) ∧
    ∀ i, c.get? i = some none → (fillna c k).get? i = some (some k) := by
  have hgk : (groupbyMean c ctg).get? 1 = some (k, groupMean c ctg k) := by
    unfold groupbyMean
    rw [List.get?_map, hk]
    rfl
  refine ⟨?_, sortedKeys_sorted c, ?_⟩
  · exact objFillStep_ok tgt t col c ctg (k, groupMean c ctg k) hc ht hgk
  · intro i hi
    rw [fillna_get?, hi]
    rfl

/-- C1 (witness for the amended theorem, at `exT1`). -/
theorem C1_fill_uses_second_smallest_key_witness :
    (exT1.getCol "v" = some exC1v ∧ exT1.getCol "t" = some exC1t ∧
      (sortedKeys exC1v).get? 1 = some (Val.str "b")) ∧
    (objFillStep "t" exT1 "v" =
        .ok (exT1.setCol "v" (fillna exC1v (Val.str "b"))) ∧
      List.Sorted ValLe (sortedKeys exC1v) ∧
      ∀ i, exC1v.get? i = some none →
        (fillna exC1v (Val.str "b")).get? i = some (some (Val.str "b"))) :=
  ⟨⟨by decide, by decide, by decide⟩,
    C1_fill_uses_second_smallest_key exT1 "v" "t" exC1v exC1t (Val.str "b")
      (by decide) (by decide) (by decide)⟩

/-- C2 (counterexample): on `exT2` — the spec's own scenario, target means
a ↦ 10, b ↦ 5, c ↦ 20 — the code labels in ascending KEY order
(a=0, b=1, c=2), while ranking by target mean ascending would give
b=0, a=1, c=2; the two labelled columns differ. -/
theorem C2_counterexample :
    object_transformation exT2 ["v"] "t" =
      some ⟨[("v", [some (Val.num 0), some (Val.num 1), some (Val.num 2)]),
             ("t", exC2t)]⟩ ∧
    mapLabels (specMeanKeys exC2v exC2t) exC2v =
      [some (Val.num 1), some (Val.num 0), some (Val.num 2)] ∧
    ([some (Val.num 0), some (Val.num 1), some (Val.num 2)] : List Cell) ≠
      [some (Val.num 1), some (Val.num 0), some (Val.num 2)] :=
  ⟨by decide, by with_unfolding_all decide, by decide⟩

/-- C2 (amended): after the labelling loop of `object_transformation`, a
column with no missing entries carries exactly the integer labels
`{0 .. distinct(C)-1}`, and each distinct value's label is its 0-based rank
in the list of distinct values sorted ascending BY VALUE (the `groupby` key
order), not by target mean. -/
theorem C2_labels_are_key_ranks (t : Table) (col tgt : String)
    (c ctg : List Cell)
    (hc : t.getCol col = some c) (ht : t.getCol tgt = some ctg)
    (hnm : ∀ x ∈ c, x ≠ none) :
    ∃ d, objLabelStep tgt t col = .ok (t.setCol col d) ∧
      List.Sorted ValLe (sortedKeys c) ∧ (sortedKeys c).Nodup ∧
      (∀ i v, c.get? i = some (some v) →
        ∃ j, (sortedKeys c).get? j = some v ∧
          d.get? i = some (some (Val.num j))) ∧
      (∀ x, x ∈ colVals d ↔
        ∃ j, j < (sortedKeys c).length ∧ x = Val.num j) := by
  refine ⟨mapLabels (sortedKeys c) c, ?_, sortedKeys_sorted c,
    sortedKeys_nodup c, ?_, ?_⟩
  · have h := objLabelStep_ok tgt t col c ctg hc ht
    rw [groupbyMean_keys] at h
    exact h
  · intro i v hi
    have hsome : (some v : Cell) ∈ c := by
      have := List.get?_mem hi
      exact this
    have hv : v ∈ colVals c := by
      unfold colVals
      exact List.mem_filterMap.mpr ⟨some v, hsome, rfl⟩
    rcases idxIn_of_mem (mem_sortedKeys.mpr hv) with ⟨j, hj⟩
    refine ⟨j, idxIn_get? hj, ?_⟩
    unfold mapLabels
    rw [List.get?_map, hi]
    simp only [Option.map_some', Option.some_bind]
    rw [hj]
    rfl
  · intro x
    constructor
    · intro hx
      rcases List.mem_filterMap.mp hx with ⟨y, hy, hyx⟩
      rcases List.mem_map.mp hy with ⟨z, hz, rfl⟩
      rcases z with _ | v
      · cases hyx
      · dsimp only [Option.bind] at hyx
        rcases hj : idxIn v (sortedKeys c) with _ | j
        · rw [hj] at hyx
          cases hyx
        · rw [hj] at hyx
          have hxj : x = Val.num j := by
            have := Option.some.inj hyx
            exact this.symm
          exact ⟨j, idxIn_lt_length hj, hxj⟩
    · rintro ⟨j, hjlt, rfl⟩
      rcases hgj : (sortedKeys c).get? j with _ | v
      · rw [List.get?_eq_none] at hgj
        omega
      · have hv : v ∈ colVals c :=
          mem_sortedKeys.mp (List.get?_mem hgj)
        rcases List.mem_filterMap.mp hv with ⟨y, hy, hyv⟩
        rcases y with _ | v'
        · cases hyv
        · have hvv : v' = v := Option.some.inj hyv
          subst hvv
          have hidx : idxIn v' (sortedKeys c) = some j :=
            idxIn_of_nodup_get? (sortedKeys_nodup c) hgj
          apply List.mem_filterMap.mpr
          refine ⟨some (Val.num j), ?_, rfl⟩
          apply List.mem_map.mpr
          refine ⟨some v', hy, ?_⟩
          dsimp only [Option.bind]
          rw [hidx]
          rfl

/-- C2 (witness for the amended theorem, at `exT2`). -/
theorem C2_labels_are_key_ranks_witness :
    (exT2.getCol "v" = some exC2v ∧ exT2.getCol "t" = some exC2t ∧
      ∀ x ∈ exC2v, x ≠ none) ∧
    (∃ d, objLabelStep "t" exT2 "v" = .ok (exT2.setCol "v" d) ∧
      List.Sorted ValLe (sortedKeys exC2v) ∧ (sortedKeys exC2v).Nodup ∧
      (∀ i v, exC2v.get? i = some (some v) →
        ∃ j, (sortedKeys exC2v).get? j = some v ∧
          d.get? i = some (some (Val.num j))) ∧
      (∀ x, x ∈ colVals d ↔
        ∃ j, j < (sortedKeys exC2v).length ∧ x = Val.num j)) :=
  ⟨⟨by decide, by decide, by decide⟩,
    C2_labels_are_key_ranks exT2 "v" "t" exC2v exC2t
      (by decide) (by decide) (by decide)⟩

/-- C3 (counterexample): in column `a` of `exT3` the values 2 and 1 are
tied for most frequent and 2 occurs first in column order, yet
`mode()[0]` is 1 (pandas sorts tied modes ascending), so the missing entry
is filled with 1, not with the first-encountered tied value 2. -/
theorem C3_counterexample :
    seriesMode0E exC3a = .ok (Val.num 1) ∧
    specModeFirst exC3a = some (Val.num 2) ∧
    Val.num 1 ≠ Val.num 2 ∧
    discrete_transformation exT3 ["a", "b"] =
      some ⟨[("a", [some (Val.num 2), some (Val.num 2), some (Val.num 1),
                    some (Val.num 1), some (Val.num 1)]),
             ("b", [some (Val.num 7), some (Val.num 7), some (Val.num 7),
                    some (Val.num 7), some (Val.num 7)])]⟩ :=
  ⟨by decide, by decide, by decide, by decide⟩

/-- C3 (amended): DiscreteImputer fills every missing entry of a column
with `mode()[0]`, which is a most-frequent (pre-imputation mode) value of
the column; on a tie it is the SMALLEST tied value — pandas returns tied
modes sorted ascending — not the first value encountered in column
order. -/
theorem C3_mode_fill_smallest_tie (t : Table) (col : String)
    (c : List Cell) (m : Val)
    (hc : t.getCol col = some c) (hm : seriesMode0E c = .ok m) :
    imputeCol t col = .ok (t.setCol col (fillna c m)) ∧
    m ∈ colVals c ∧
    (∀ v ∈ colVals c, (colVals c).count v ≤ (colVals c).count m) ∧
    (∀ v ∈ colVals c, (colVals c).count v = (colVals c).count m → ValLe m v) ∧
    ∀ i, c.get? i = some none → (fillna c m).get? i = some (some m) := by
  rcases seriesMode0E_spec c m hm with ⟨h1, h2, h3⟩
  refine ⟨imputeCol_ok t col c m hc hm, h1, h2, h3, ?_⟩
  intro i hi
  rw [fillna_get?, hi]
  rfl

/-- C3 (witness for the amended theorem, at `exT3`). -/
theorem C3_mode_fill_smallest_tie_witness :
    (exT3.getCol "a" = some exC3a ∧ seriesMode0E exC3a = .ok (Val.num 1)) ∧
    (imputeCol exT3 "a" = .ok (exT3.setCol "a" (fillna exC3a (Val.num 1))) ∧
      Val.num 1 ∈ colVals exC3a ∧
      (∀ v ∈ colVals exC3a,
        (colVals exC3a).count v ≤ (colVals exC3a).count (Val.num 1)) ∧
      (∀ v ∈ colVals exC3a,
        (colVals exC3a).count v = (colVals exC3a).count (Val.num 1) →
          ValLe (Val.num 1) v) ∧
      ∀ i, exC3a.get? i = some none →
        (fillna exC3a (Val.num 1)).get? i = some (some (Val.num 1))) :=
  ⟨⟨by decide, by decide⟩,
    C3_mode_fill_smallest_tie exT3 "a" exC3a (Val.num 1)
      (by decide) (by decide)⟩

/-- C7 (counterexample): on `exT7`, whose categorical column has a single
distinct group, `object_transformation` does not fail with a descriptive
contract-violation report: the out-of-range `.index[1]` lookup lands in the
catch-all `except Exception` branch (the generic error) and the function
returns no result. -/
theorem C7_counterexample :
    objectBody exT7 ["v"] "t" = .error .genericError ∧
    object_transformation exT7 ["v"] "t" = none :=
  ⟨by decide, by decide⟩

/-- C7 (amended): on a table whose first listed categorical column has
fewer than two distinct groups, the `.index[1]` lookup of
`object_transformation` raises an out-of-range IndexError which the generic
`except Exception` branch absorbs after logging; the function returns no
result rather than reporting the contract violation descriptively. -/
theorem C7_few_groups_generic (t : Table) (col tgt : String)
    (rest : List String) (c ctg : List Cell)
    (hc : t.getCol col = some c) (ht : t.getCol tgt = some ctg)
    (hk : (groupbyMean c ctg).get? 1 = none) :
    objectBody t (col :: rest) tgt = .error .genericError ∧
    object_transformation t (col :: rest) tgt = none := by
  have hstep := objFillStep_fewGroups tgt t col c ctg hc ht hk
  have hb : objectBody t (col :: rest) tgt = .error .genericError := by
    unfold objectBody foldE
    rw [hstep]
  refine ⟨hb, ?_⟩
  unfold object_transformation
  rw [hb]
  rfl

/-- C7 (witness for the amended theorem, at `exT7`). -/
theorem C7_few_groups_generic_witness :
    (exT7.getCol "v" = some [some (Val.str "a"), some (Val.str "a")] ∧
      exT7.getCol "t" = some [some (Val.num 1), some (Val.num 2)] ∧
      (groupbyMean [some (Val.str "a"), some (Val.str "a")]
        [some (Val.num 1), some (Val.num 2)]).get? 1 = none) ∧
    (objectBody exT7 ["v"] "t" = .error .genericError ∧
      object_transformation exT7 ["v"] "t" = none) :=
  ⟨⟨by decide, by decide, by decide⟩,
    C7_few_groups_generic exT7 "v" "t" []
      [some (Val.str "a"), some (Val.str "a")]
      [some (Val.num 1), some (Val.num 2)]
      (by decide) (by decide) (by decide)⟩

/-- C8: each stage function catches its expected error kind, logs it and
returns no result instead of raising: `read_data` on a nonexistent path
(FileNotFoundError), and `discrete_transformation` /
`object_transformation` on a table missing a listed column (KeyError). -/
theorem C8_stage_errors_swallowed (fs : FileSys) (path : String) (t : Table)
    (dcols ocols : List String) (tgt cd co : String)
    (hfs : fs path = none)
    (hd : cd ∈ dcols) (hcd : t.getCol cd = none)
    (ho : co ∈ ocols) (hco : t.getCol co = none) :
    read_data fs path = none ∧
    discrete_transformation t dcols = none ∧
    object_transformation t ocols tgt = none := by
  refine ⟨?_, ?_, ?_⟩
  · unfold read_data readBody
    rw [hfs]
    rfl
  · rcases foldE_missing_error imputeCol
      (fun t c h => ⟨.keyError, imputeCol_err_missing t c h⟩)
      (fun t c t' h => imputeCol_pres_missing t c t' h)
      dcols t cd hd hcd with ⟨e, he⟩
    unfold discrete_transformation discreteBody
    rw [he]
    rfl
  · rcases foldE_missing_error (objFillStep tgt)
      (fun t c h => ⟨.keyError, objFillStep_err_missing tgt t c h⟩)
      (fun t c t' h => objFillStep_pres_missing tgt t c t' h)
      ocols t co ho hco with ⟨e, he⟩
    unfold object_transformation objectBody
    rw [he]
    rfl

/-- C8 (witness): a missing file and an empty table missing the listed
columns. -/
theorem C8_stage_errors_swallowed_witness :
    ((fun _ : String => (none : Option Table)) "p" = none ∧
      "q" ∈ ["q"] ∧ (Table.mk []).getCol "q" = none ∧
      "r" ∈ ["r"] ∧ (Table.mk []).getCol "r" = none) ∧
    (read_data (fun _ => none) "p" = none ∧
      discrete_transformation ⟨[]⟩ ["q"] = none ∧
      object_transformation ⟨[]⟩ ["r"] "t" = none) :=
  ⟨⟨rfl, by decide, by decide, by decide, by decide⟩,
    C8_stage_errors_swallowed (fun _ => none) "p" ⟨[]⟩ ["q"] ["r"] "t" "q" "r"
      rfl (by decide) (by decide) (by decide) (by decide)⟩

/-- C10 (counterexample): on `exT10`, whose listed column `a` is entirely
missing, the failing `mode()[0]` lookup raises KeyError, so the `except
KeyError` branch (logged as "Column(s) not found") is taken — NOT the
generic error branch the claim names — and no result is returned. -/
theorem C10_counterexample :
    discreteBody exT10 ["a", "b"] = .error .keyError ∧
    discreteBody exT10 ["a", "b"] ≠ .error .genericError ∧
    discrete_transformation exT10 ["a", "b"] = none :=
  ⟨by decide, by decide, by decide⟩

/-- C10 (amended): if every listed discrete column exists and some listed
column is entirely missing, its mode Series is empty, the position-0 lookup
raises KeyError, and `discrete_transformation` takes its KeyError branch
(logged as column-not-found, not the generic branch), returning no result —
so success indeed additionally requires every listed column to contain at
least one non-missing value. -/
theorem C10_all_missing_keyerror (t : Table) (cols : List String)
    (hall : ∀ c ∈ cols, ∃ d, t.getCol c = some d)
    (hwit : ∃ c ∈ cols, ∃ d, t.getCol c = some d ∧ colVals d = []) :
    discreteBody t cols = .error .keyError ∧
    discrete_transformation t cols = none := by
  have hf := foldE_imputeCol_allMissing cols t hall hwit
  have hb : discreteBody t cols = .error .keyError := by
    unfold discreteBody
    rw [hf]
  refine ⟨hb, ?_⟩
  unfold discrete_transformation
  rw [hb]
  rfl

/-- C10 (witness for the amended theorem, at `exT10`). -/
theorem C10_all_missing_keyerror_witness :
    ((∀ c ∈ ["a", "b"], ∃ d, exT10.getCol c = some d) ∧
      (∃ c ∈ ["a", "b"], ∃ d, exT10.getCol c = some d ∧ colVals d = [])) ∧
    (discreteBody exT10 ["a", "b"] = .error .keyError ∧
      discrete_transformation exT10 ["a", "b"] = none) :=
  by
  have hall : ∀ c ∈ ["a", "b"], ∃ d, exT10.getCol c = some d := by
    intro c hc
    rcases List.mem_cons.mp hc with rfl | hc'
    · exact ⟨[none, none], by decide⟩
    · rcases List.mem_cons.mp hc' with rfl | hc''
      · exact ⟨[some (Val.num 1), some (Val.num 1)], by decide⟩
      · cases hc''
  have hwit : ∃ c ∈ ["a", "b"], ∃ d, exT10.getCol c = some d ∧ colVals d = [] :=
    ⟨"a", by decide, [none, none], by decide, by decide⟩
  exact ⟨⟨hall, hwit⟩, C10_all_missing_keyerror exT10 ["a", "b"] hall hwit⟩

theorem listGetE_ok (l : List String) (i : ℕ) (s : String)
    (h : l.get? i = some s) : listGetE l i = .ok s := by
  unfold listGetE
  rw [h]

/-- C4: whenever each listed discrete column exists and has a non-missing
value, `discrete_transformation` succeeds; afterwards no listed column has
a missing entry, and the column at list index 1 — mode-filled first, then
`replace(0, 1)` — contains no exact-zero value. -/
theorem C4_discrete_impute_and_zero_fix (t : Table) (cols : List String)
    (c1 : String) (hc1 : cols.get? 1 = some c1)
    (hall : ∀ c ∈ cols, ∃ d, t.getCol c = some d ∧ colVals d ≠ []) :
    ∃ t', discrete_transformation t cols = some t' ∧
      (∀ c ∈ cols, ∃ d, t'.getCol c = some d ∧ ∀ x ∈ d, x ≠ none) ∧
      ∃ d1, t'.getCol c1 = some d1 ∧ (∀ x ∈ d1, x ≠ none) ∧
        ∀ x ∈ d1, x ≠ some (Val.num 0) := by
  rcases foldE_imputeCol_ok cols t hall with ⟨tF, hfold, hunch, hprops⟩
  have hc1mem : c1 ∈ cols := List.get?_mem hc1
  rcases hprops c1 hc1mem with ⟨d1', hd1', hnn1, _⟩
  have hbody : discreteBody t cols =
      .ok (tF.setCol c1 (replaceVal d1' (Val.num 0) (Val.num 1))) := by
    unfold discreteBody
    rw [hfold]
    dsimp only
    rw [listGetE_ok cols 1 c1 hc1]
    dsimp only
    unfold Table.getColE
    rw [hd1']
  refine ⟨tF.setCol c1 (replaceVal d1' (Val.num 0) (Val.num 1)), ?_, ?_, ?_⟩
  · unfold discrete_transformation
    rw [hbody]
    rfl
  · intro c hc
    by_cases hcc1 : c = c1
    · subst hcc1
      exact ⟨replaceVal d1' (Val.num 0) (Val.num 1),
        tF.getCol_setCol_self c _, replaceVal_ne_none d1' _ _ hnn1⟩
    · rcases hprops c hc with ⟨d, hd, hnn, _⟩
      rw [tF.getCol_setCol_ne hcc1]
      exact ⟨d, hd, hnn⟩
  · exact ⟨replaceVal d1' (Val.num 0) (Val.num 1),
      tF.getCol_setCol_self c1 _, replaceVal_ne_none d1' _ _ hnn1,
      replaceVal_free d1'⟩

/-- C4 (witness): the spec's scenario — `passenger_count` `[1, 0, NaN, 2]`
at discrete-list index 1 ends as `[1, 1, 1, 2]` (the tied mode 0 fills the
NaN, then `replace(0, 1)` removes both zeros). -/
theorem C4_discrete_impute_and_zero_fix_witness :
    (exT4.cols.length = 2 ∧ ["trip", "pc"].get? 1 = some "pc" ∧
      discrete_transformation exT4 ["trip", "pc"] =
        some ⟨[("trip", [some (Val.num 3), some (Val.num 3),
                         some (Val.num 3), some (Val.num 3)]),
               ("pc", [some (Val.num 1), some (Val.num 1),
                       some (Val.num 1), some (Val.num 2)])]⟩) ∧
    (∃ t', discrete_transformation exT4 ["trip", "pc"] = some t' ∧
      (∀ c ∈ ["trip", "pc"], ∃ d, t'.getCol c = some d ∧ ∀ x ∈ d, x ≠ none) ∧
      ∃ d1, t'.getCol "pc" = some d1 ∧ (∀ x ∈ d1, x ≠ none) ∧
        ∀ x ∈ d1, x ≠ some (Val.num 0)) := by
  have hall : ∀ c ∈ ["trip", "pc"], ∃ d, exT4.getCol c = some d ∧
      colVals d ≠ [] := by
    intro c hc
    rcases List.mem_cons.mp hc with rfl | hc'
    · exact ⟨[some (Val.num 3), some (Val.num 3), some (Val.num 3),
        some (Val.num 3)], by decide, by decide⟩
    · rcases List.mem_cons.mp hc' with rfl | hc''
      · exact ⟨[some (Val.num 1), some (Val.num 0), none, some (Val.num 2)],
          by decide, by decide⟩
      · cases hc''
  exact ⟨⟨by decide, by decide, by decide⟩,
    C4_discrete_impute_and_zero_fix exT4 ["trip", "pc"] "pc" (by decide) hall⟩

theorem runStage_frame (body : Table → Except PrepError Table) (h : Heap)
    (r : Ref) (hr : r < h.length) :
    (runStage body h r).1.deref r = h.deref r := by
  unfold runStage Heap.alloc Heap.deref Heap.write
  dsimp only
  rcases hb : body ((h ++ [h.getD r ⟨[]⟩]).getD h.length ⟨[]⟩) with e | t <;>
    dsimp only
  · rw [List.getD_eq_getElem?_getD, List.getD_eq_getElem?_getD,
      List.getElem?_append_left hr]
  · rw [List.getD_eq_getElem?_getD, List.getD_eq_getElem?_getD,
      List.getElem?_set_ne ((Nat.ne_of_lt hr).symm),
      List.getElem?_append_left hr]

/-- C9: at the reference level, each of the three pipeline stages first
copies its argument (`df.copy()`) and mutates only the copy, so the
caller's table is unchanged whether the stage succeeds or fails. -/
theorem C9_stages_preserve_input (h : Heap) (r : Ref) (hr : r < h.length)
    (dcols ocols fcols datecols : List String) (tgt : String) :
    (discrete_transformation_ref h r dcols).1.deref r = h.deref r ∧
    (object_transformation_ref h r ocols tgt).1.deref r = h.deref r ∧
    (feature_engineering_ref h r fcols datecols dcols).1.deref r = h.deref r :=
  ⟨runStage_frame _ h r hr, runStage_frame _ h r hr, runStage_frame _ h r hr⟩

/-- C9 (witness): a one-table heap. -/
theorem C9_stages_preserve_input_witness :
    (0 < ([exT4] : Heap).length) ∧
    ((discrete_transformation_ref [exT4] 0 ["trip", "pc"]).1.deref 0 =
        Heap.deref [exT4] 0 ∧
      (object_transformation_ref [exT4] 0 ["trip"] "pc").1.deref 0 =
        Heap.deref [exT4] 0 ∧
      (feature_engineering_ref [exT4] 0 ["trip"] ["pc"]
          ["trip", "pc"]).1.deref 0 = Heap.deref [exT4] 0) :=
  ⟨by decide,
    C9_stages_preserve_input [exT4] 0 (by decide) ["trip", "pc"] ["trip"]
      ["trip"] ["pc"] "pc"⟩

theorem find?_filter_name (n : String) (dnames : List String)
    (hn : (dnames.contains n) = false) :
    ∀ l : List (String × List Cell),
      ((l.filter fun p => !(dnames.contains p.1)).find? fun p => p.1 == n) =
        (l.find? fun p => p.1 == n)
  | [] => rfl
  | p :: l => by
    have hnm : n ∉ dnames := by simpa using hn
    by_cases hpe : p.1 = n
    · simp [List.filter_cons, List.find?_cons, hnm, hpe,
        find?_filter_name n dnames hn l]
    · by_cases hmem : p.1 ∈ dnames
      · simp [List.filter_cons, List.find?_cons, hmem, hpe]
        simpa using find?_filter_name n dnames hn l
      · simp [List.filter_cons, List.find?_cons, hmem, hpe]
        simpa using find?_filter_name n dnames hn l

theorem getCol_dropFilter (t : Table) (dnames : List String) (n : String)
    (hn : (dnames.contains n) = false) :
    (Table.mk (t.cols.filter fun p => !(dnames.contains p.1))).getCol n =
      t.getCol n := by
  unfold Table.getCol
  dsimp only
  rw [find?_filter_name n dnames hn t.cols]

theorem map_fst_filter_contains (dnames : List String) :
    ∀ l : List (String × List Cell),
      ((l.filter fun p => !(dnames.contains p.1)).map Prod.fst) =
        ((l.map Prod.fst).filter fun nm => !(dnames.contains nm))
  | [] => rfl
  | p :: l => by
    by_cases hmem : p.1 ∈ dnames
    · simp [List.filter_cons, hmem]
      simpa using map_fst_filter_contains dnames l
    · simp [List.filter_cons, hmem]
      simpa using map_fst_filter_contains dnames l

theorem names_dropFilter (t : Table) (dnames : List String) :
    (Table.mk (t.cols.filter fun p => !(dnames.contains p.1))).names =
      t.names.filter fun nm => !(dnames.contains nm) := by
  unfold Table.names
  dsimp only
  exact map_fst_filter_contains dnames t.cols

theorem dropColsE_ok (t : Table) (dnames : List String)
    (h : ∀ nm ∈ dnames, nm ∈ t.names) :
    t.dropColsE dnames =
      .ok ⟨t.cols.filter fun p => !(dnames.contains p.1)⟩ := by
  unfold Table.dropColsE
  rw [if_pos]
  rw [List.all_eq_true]
  intro nm hnm
  exact (t.any_name_iff nm).mpr (h nm hnm)

theorem contains_pair_eq_false {x d0 d1 : String} (h0 : x ≠ d0)
    (h1 : x ≠ d1) : (([d0, d1] : List String).contains x) = false := by
  simp [h0, h1]

theorem name_ne_of_mem_notMem {a b : String} {l : List String}
    (ha : a ∈ l) (hb : b ∉ l) : a ≠ b :=
  fun he => hb (he ▸ ha)

theorem cellNe0_imp {x : Cell} (h : cellNe0 x = true) :
    x ≠ some (Val.num 0) := by
  unfold cellNe0 at h
  exact of_decide_eq_true h

theorem cellNe_somes {x y : Cell} (h : cellNe x y = true) :
    ∀ a : Val, x = some a → y ≠ some a := by
  rintro a rfl hy
  subst hy
  unfold cellNe at h
  have := of_decide_eq_true h
  exact this rfl

theorem featureBody_spec (t : Table) (fcols disccols : List String)
    (f0 f1 f2 f3 d0 d1 p1 : String)
    (hf0 : fcols.get? 0 = some f0) (hf1 : fcols.get? 1 = some f1)
    (hf2 : fcols.get? 2 = some f2) (hf3 : fcols.get? 3 = some f3)
    (hp1 : disccols.get? 1 = some p1)
    (hm0 : f0 ∈ t.names) (hm1 : f1 ∈ t.names) (hm2 : f2 ∈ t.names)
    (hm3 : f3 ∈ t.names) (hmd0 : d0 ∈ t.names) (hmd1 : d1 ∈ t.names)
    (hmp1 : p1 ∈ t.names)
    (hdur : "duration" ∉ t.names) (hfpd : "fare_per_dist" ∉ t.names)
    (hfpp : "fare_per_passenger" ∉ t.names)
    (hf0d : f0 ≠ d0 ∧ f0 ≠ d1) (hf1d : f1 ≠ d0 ∧ f1 ≠ d1)
    (hf2d : f2 ≠ d0 ∧ f2 ≠ d1) (hf3d : f3 ≠ d0 ∧ f3 ≠ d1) :
    ∃ t' tF cd0 cd1 cf3 cf1 cq1,
      featureBody t fcols [d0, d1] disccols = .ok t' ∧
      rowFilters t f0 f3 f1 f2 = .ok tF ∧
      tF.getCol d0 = some cd0 ∧ tF.getCol d1 = some cd1 ∧
      tF.getCol f3 = some cf3 ∧ tF.getCol f1 = some cf1 ∧
      tF.getCol p1 = some cq1 ∧
      t'.getCol "duration" = some (List.zipWith durationCell cd1 cd0) ∧
      t'.getCol "fare_per_dist" = some (List.zipWith subCell cf3 cf1) ∧
      t'.getCol "fare_per_passenger" = some (List.zipWith subCell cf3 cq1) ∧
      (∃ c, t'.getCol f0 = some c ∧ ∀ x ∈ c, x ≠ some (Val.num 0)) ∧
      (∃ c, t'.getCol f3 = some c ∧ ∀ x ∈ c, x ≠ some (Val.num 0)) ∧
      (∃ ca cb, t'.getCol f1 = some ca ∧ t'.getCol f2 = some cb ∧
        ∀ q ∈ ca.zip cb, ∀ a : Val, q.1 = some a → q.2 ≠ some a) ∧
      t'.names =
        (t.names.filter fun nm => !(([d0, d1] : List String).contains nm)) ++
          ["duration", "fare_per_dist", "fare_per_passenger"] := by
  obtain ⟨c0, hc0⟩ := Option.isSome_iff_exists.mp
    ((t.getCol_isSome_iff f0).mpr hm0)
  obtain ⟨c1t, hc1t⟩ := Option.isSome_iff_exists.mp
    ((t.getCol_isSome_iff f1).mpr hm1)
  obtain ⟨c2t, hc2t⟩ := Option.isSome_iff_exists.mp
    ((t.getCol_isSome_iff f2).mpr hm2)
  obtain ⟨c3t, hc3t⟩ := Option.isSome_iff_exists.mp
    ((t.getCol_isSome_iff f3).mpr hm3)
  obtain ⟨cd0t, hcd0t⟩ := Option.isSome_iff_exists.mp
    ((t.getCol_isSome_iff d0).mpr hmd0)
  obtain ⟨cd1t, hcd1t⟩ := Option.isSome_iff_exists.mp
    ((t.getCol_isSome_iff d1).mpr hmd1)
  obtain ⟨cp1t, hcp1t⟩ := Option.isSome_iff_exists.mp
    ((t.getCol_isSome_iff p1).mpr hmp1)
  set m0 := c0.map cellNe0 with hm0e
  set t1 := t.filterMask m0 with ht1e
  have hn1 : t1.names = t.names := t.names_filterMask m0
  have hc3_1 : t1.getCol f3 = some (applyMask m0 c3t) := by
    rw [ht1e, t.getCol_filterMask, hc3t]
    rfl
  set c3 := applyMask m0 c3t with hc3e
  set m1 := c3.map cellNe0 with hm1e
  set t2 := t1.filterMask m1 with ht2e
  have hn2 : t2.names = t.names := by
    rw [ht2e, t1.names_filterMask m1, hn1]
  have hca2 : t2.getCol f1 = some (applyMask m1 (applyMask m0 c1t)) := by
    rw [ht2e, t1.getCol_filterMask, ht1e, t.getCol_filterMask, hc1t]
    rfl
  have hcb2 : t2.getCol f2 = some (applyMask m1 (applyMask m0 c2t)) := by
    rw [ht2e, t1.getCol_filterMask, ht1e, t.getCol_filterMask, hc2t]
    rfl
  set ca := applyMask m1 (applyMask m0 c1t) with hcae
  set cb := applyMask m1 (applyMask m0 c2t) with hcbe
  set mNe := List.zipWith cellNe ca cb with hmNee
  set tF := t2.filterMask mNe with htFe
  have hnF : tF.names = t.names := by
    rw [htFe, t2.names_filterMask mNe, hn2]
  have hrf : rowFilters t f0 f3 f1 f2 = .ok tF := by
    unfold rowFilters Table.getColE
    rw [hc0]
    dsimp only
    rw [← hm0e, ← ht1e, hc3_1]
    dsimp only
    rw [← hm1e, ← ht2e, hca2]
    dsimp only
    rw [hcb2]
  have hcf0F : tF.getCol f0 =
      some (applyMask mNe (applyMask m1 (applyMask m0 c0))) := by
    rw [htFe, t2.getCol_filterMask, ht2e, t1.getCol_filterMask, ht1e,
      t.getCol_filterMask, hc0]
    rfl
  have hcf3_2 : t2.getCol f3 = some (applyMask m1 c3) := by
    rw [ht2e, t1.getCol_filterMask, hc3_1]
    rfl
  have hcf3F : tF.getCol f3 = some (applyMask mNe (applyMask m1 c3)) := by
    rw [htFe, t2.getCol_filterMask, hcf3_2]
    rfl
  have hcaF : tF.getCol f1 = some (applyMask mNe ca) := by
    rw [htFe, t2.getCol_filterMask, hca2]
    rfl
  have hcbF : tF.getCol f2 = some (applyMask mNe cb) := by
    rw [htFe, t2.getCol_filterMask, hcb2]
    rfl
  have hcd0F : tF.getCol d0 =
      some (applyMask mNe (applyMask m1 (applyMask m0 cd0t))) := by
    rw [htFe, t2.getCol_filterMask, ht2e, t1.getCol_filterMask, ht1e,
      t.getCol_filterMask, hcd0t]
    rfl
  have hcd1F : tF.getCol d1 =
      some (applyMask mNe (applyMask m1 (applyMask m0 cd1t))) := by
    rw [htFe, t2.getCol_filterMask, ht2e, t1.getCol_filterMask, ht1e,
      t.getCol_filterMask, hcd1t]
    rfl
  have hcp1F : tF.getCol p1 =
      some (applyMask mNe (applyMask m1 (applyMask m0 cp1t))) := by
    rw [htFe, t2.getCol_filterMask, ht2e, t1.getCol_filterMask, ht1e,
      t.getCol_filterMask, hcp1t]
    rfl
  set cf0F := applyMask mNe (applyMask m1 (applyMask m0 c0)) with hcf0Fe
  set cf3F := applyMask mNe (applyMask m1 c3) with hcf3Fe
  set caF := applyMask mNe ca with hcaFe
  set cbF := applyMask mNe cb with hcbFe
  set cd0F := applyMask mNe (applyMask m1 (applyMask m0 cd0t)) with hcd0Fe
  set cd1F := applyMask mNe (applyMask m1 (applyMask m0 cd1t)) with hcd1Fe
  set cp1F := applyMask mNe (applyMask m1 (applyMask m0 cp1t)) with hcp1Fe
  have hf0dur : f0 ≠ "duration" := name_ne_of_mem_notMem hm0 hdur
  have hf0fpd : f0 ≠ "fare_per_dist" := name_ne_of_mem_notMem hm0 hfpd
  have hf0fpp : f0 ≠ "fare_per_passenger" := name_ne_of_mem_notMem hm0 hfpp
  have hf1dur : f1 ≠ "duration" := name_ne_of_mem_notMem hm1 hdur
  have hf1fpd : f1 ≠ "fare_per_dist" := name_ne_of_mem_notMem hm1 hfpd
  have hf1fpp : f1 ≠ "fare_per_passenger" := name_ne_of_mem_notMem hm1 hfpp
  have hf2dur : f2 ≠ "duration" := name_ne_of_mem_notMem hm2 hdur
  have hf2fpd : f2 ≠ "fare_per_dist" := name_ne_of_mem_notMem hm2 hfpd
  have hf2fpp : f2 ≠ "fare_per_passenger" := name_ne_of_mem_notMem hm2 hfpp
  have hf3dur : f3 ≠ "duration" := name_ne_of_mem_notMem hm3 hdur
  have hf3fpd : f3 ≠ "fare_per_dist" := name_ne_of_mem_notMem hm3 hfpd
  have hf3fpp : f3 ≠ "fare_per_passenger" := name_ne_of_mem_notMem hm3 hfpp
  have hp1dur : p1 ≠ "duration" := name_ne_of_mem_notMem hmp1 hdur
  have hp1fpd : p1 ≠ "fare_per_dist" := name_ne_of_mem_notMem hmp1 hfpd
  have hdurd0 : "duration" ≠ d0 :=
    (name_ne_of_mem_notMem hmd0 hdur).symm
  have hdurd1 : "duration" ≠ d1 :=
    (name_ne_of_mem_notMem hmd1 hdur).symm
  have hfpdd0 : "fare_per_dist" ≠ d0 :=
    (name_ne_of_mem_notMem hmd0 hfpd).symm
  have hfpdd1 : "fare_per_dist" ≠ d1 :=
    (name_ne_of_mem_notMem hmd1 hfpd).symm
  have hfppd0 : "fare_per_passenger" ≠ d0 :=
    (name_ne_of_mem_notMem hmd0 hfpp).symm
  have hfppd1 : "fare_per_passenger" ≠ d1 :=
    (name_ne_of_mem_notMem hmd1 hfpp).symm
  set t4 := tF.setCol "duration" (List.zipWith durationCell cd1F cd0F)
    with ht4e
  have ht4f3 : t4.getCol f3 = some cf3F := by
    rw [ht4e, tF.getCol_setCol_ne hf3dur]
    exact hcf3F
  have ht4f1 : t4.getCol f1 = some caF := by
    rw [ht4e, tF.getCol_setCol_ne hf1dur]
    exact hcaF
  set t5 := t4.setCol "fare_per_dist" (List.zipWith subCell cf3F caF)
    with ht5e
  have ht5f3 : t5.getCol f3 = some cf3F := by
    rw [ht5e, t4.getCol_setCol_ne hf3fpd]
    exact ht4f3
  have ht5p1 : t5.getCol p1 = some cp1F := by
    rw [ht5e, t4.getCol_setCol_ne hp1fpd, ht4e,
      tF.getCol_setCol_ne hp1dur]
    exact hcp1F
  set t6 := t5.setCol "fare_per_passenger" (List.zipWith subCell cf3F cp1F)
    with ht6e
  have hdurF : "duration" ∉ tF.names := by
    rw [hnF]
    exact hdur
  have hn4 : t4.names = tF.names ++ ["duration"] := by
    rw [ht4e]
    exact tF.names_setCol_notMem hdurF _
  have hfpd4 : "fare_per_dist" ∉ t4.names := by
    rw [hn4, hnF]
    intro hmem
    rcases List.mem_append.mp hmem with h | h
    · exact hfpd h
    · simp at h
  have hn5 : t5.names = t4.names ++ ["fare_per_dist"] := by
    rw [ht5e]
    exact t4.names_setCol_notMem hfpd4 _
  have hfpp5 : "fare_per_passenger" ∉ t5.names := by
    rw [hn5, hn4, hnF]
    intro hmem
    rcases List.mem_append.mp hmem with h | h
    · rcases List.mem_append.mp h with h' | h'
      · exact hfpp h'
      · simp at h'
    · simp at h
  have hn6 : t6.names = t5.names ++ ["fare_per_passenger"] := by
    rw [ht6e]
    exact t5.names_setCol_notMem hfpp5 _
  have hd0mem6 : d0 ∈ t6.names := by
    rw [hn6, hn5, hn4, hnF]
    exact List.mem_append_left _ (List.mem_append_left _
      (List.mem_append_left _ hmd0))
  have hd1mem6 : d1 ∈ t6.names := by
    rw [hn6, hn5, hn4, hnF]
    exact List.mem_append_left _ (List.mem_append_left _
      (List.mem_append_left _ hmd1))
  set tS : Table :=
    ⟨t6.cols.filter fun p => !(([d0, d1] : List String).contains p.1)⟩
    with htSe
  have hdropok : t6.dropColsE [d0, d1] = .ok tS := by
    rw [htSe]
    apply dropColsE_ok
    intro nm hnm
    rcases List.mem_cons.mp hnm with rfl | hnm'
    · exact hd0mem6
    · rcases List.mem_cons.mp hnm' with rfl | hnm''
      · exact hd1mem6
      · cases hnm''
  have hbody : featureBody t fcols [d0, d1] disccols = .ok tS := by
    unfold featureBody Table.getColE
    rw [listGetE_ok fcols 0 f0 hf0]
    dsimp only
    rw [listGetE_ok fcols 3 f3 hf3]
    dsimp only
    rw [listGetE_ok fcols 1 f1 hf1]
    dsimp only
    rw [listGetE_ok fcols 2 f2 hf2]
    dsimp only
    rw [hrf]
    dsimp only
    rw [listGetE_ok [d0, d1] 1 d1 rfl]
    dsimp only
    rw [listGetE_ok [d0, d1] 0 d0 rfl]
    dsimp only
    rw [hcd1F]
    dsimp only
    rw [hcd0F]
    dsimp only
    rw [← ht4e, ht4f3]
    dsimp only
    rw [ht4f1]
    dsimp only
    rw [← ht5e, ht5f3]
    dsimp only
    rw [listGetE_ok disccols 1 p1 hp1]
    dsimp only
    rw [ht5p1]
    dsimp only
    rw [← ht6e]
    exact hdropok
  have hcont_f0 : (([d0, d1] : List String).contains f0) = false :=
    contains_pair_eq_false hf0d.1 hf0d.2
  have hcont_f1 : (([d0, d1] : List String).contains f1) = false :=
    contains_pair_eq_false hf1d.1 hf1d.2
  have hcont_f2 : (([d0, d1] : List String).contains f2) = false :=
    contains_pair_eq_false hf2d.1 hf2d.2
  have hcont_f3 : (([d0, d1] : List String).contains f3) = false :=
    contains_pair_eq_false hf3d.1 hf3d.2
  have hcont_dur : (([d0, d1] : List String).contains "duration") = false :=
    contains_pair_eq_false hdurd0 hdurd1
  have hcont_fpd :
      (([d0, d1] : List String).contains "fare_per_dist") = false :=
    contains_pair_eq_false hfpdd0 hfpdd1
  have hcont_fpp :
      (([d0, d1] : List String).contains "fare_per_passenger") = false :=
    contains_pair_eq_false hfppd0 hfppd1
  have htS_get : ∀ n : String, (([d0, d1] : List String).contains n) = false →
      tS.getCol n = t6.getCol n := by
    intro n hn
    rw [htSe]
    exact getCol_dropFilter t6 [d0, d1] n hn
  have ht6fpp : t6.getCol "fare_per_passenger" =
      some (List.zipWith subCell cf3F cp1F) := by
    rw [ht6e]
    exact t5.getCol_setCol_self _ _
  have ht6fpd : t6.getCol "fare_per_dist" =
      some (List.zipWith subCell cf3F caF) := by
    rw [ht6e, t5.getCol_setCol_ne (by decide), ht5e]
    exact t4.getCol_setCol_self _ _
  have ht6dur : t6.getCol "duration" =
      some (List.zipWith durationCell cd1F cd0F) := by
    rw [ht6e, t5.getCol_setCol_ne (by decide), ht5e,
      t4.getCol_setCol_ne (by decide), ht4e]
    exact tF.getCol_setCol_self _ _
  have ht6f0 : t6.getCol f0 = some cf0F := by
    rw [ht6e, t5.getCol_setCol_ne hf0fpp, ht5e,
      t4.getCol_setCol_ne hf0fpd, ht4e, tF.getCol_setCol_ne hf0dur]
    exact hcf0F
  have ht6f3 : t6.getCol f3 = some cf3F := by
    rw [ht6e, t5.getCol_setCol_ne hf3fpp]
    exact ht5f3
  have ht6f1 : t6.getCol f1 = some caF := by
    rw [ht6e, t5.getCol_setCol_ne hf1fpp, ht5e,
      t4.getCol_setCol_ne hf1fpd]
    exact ht4f1
  have ht6f2 : t6.getCol f2 = some cbF := by
    rw [ht6e, t5.getCol_setCol_ne hf2fpp, ht5e,
      t4.getCol_setCol_ne hf2fpd, ht4e, tF.getCol_setCol_ne hf2dur]
    exact hcbF
  refine ⟨tS, tF, cd0F, cd1F, cf3F, caF, cp1F, hbody, hrf, hcd0F, hcd1F,
    hcf3F, hcaF, hcp1F, ?_, ?_, ?_, ?_, ?_, ?_, ?_⟩
  · rw [htS_get _ hcont_dur]
    exact ht6dur
  · rw [htS_get _ hcont_fpd]
    exact ht6fpd
  · rw [htS_get _ hcont_fpp]
    exact ht6fpp
  · refine ⟨cf0F, by rw [htS_get _ hcont_f0]; exact ht6f0, ?_⟩
    intro x hx
    rw [hcf0Fe] at hx
    have hx1 := mem_applyMask hx
    have hx2 := mem_applyMask hx1
    have := applyMask_self_pred cellNe0 c0 x (by rw [← hm0e]; exact hx2)
    exact cellNe0_imp this
  · refine ⟨cf3F, by rw [htS_get _ hcont_f3]; exact ht6f3, ?_⟩
    intro x hx
    rw [hcf3Fe] at hx
    have hx1 := mem_applyMask hx
    have := applyMask_self_pred cellNe0 c3 x (by rw [← hm1e]; exact hx1)
    exact cellNe0_imp this
  · refine ⟨caF, cbF, by rw [htS_get _ hcont_f1]; exact ht6f1,
      by rw [htS_get _ hcont_f2]; exact ht6f2, ?_⟩
    intro q hq
    have hcell : cellNe q.1 q.2 = true := by
      apply zip_applyMask_cellNe ca cb q
      rw [hcaFe, hcbFe, hmNee] at hq
      exact hq
    exact cellNe_somes hcell
  · rw [htSe, names_dropFilter, hn6, hn5, hn4, hnF]
    rw [List.filter_append, List.filter_append, List.filter_append]
    rw [List.append_assoc, List.append_assoc]
    congr 1
    simp [List.filter_cons, hdurd0, hdurd1, hfpdd0, hfpdd1, hfppd0, hfppd1]

/-- C5: `feature_engineering` applies its three row filters sequentially
(each later filter sees only surviving rows); the output retains no row
whose numeric[0] column is 0, none whose numeric[3] column is 0, and none
where the numeric[1] and numeric[2] entries are equal non-missing values;
its column list is the input's columns minus exactly the two datetime
columns plus exactly the three derived columns. -/
theorem C5_feature_filters_and_columns (t : Table)
    (fcols disccols : List String) (f0 f1 f2 f3 d0 d1 p1 : String)
    (hf0 : fcols.get? 0 = some f0) (hf1 : fcols.get? 1 = some f1)
    (hf2 : fcols.get? 2 = some f2) (hf3 : fcols.get? 3 = some f3)
    (hp1 : disccols.get? 1 = some p1)
    (hm0 : f0 ∈ t.names) (hm1 : f1 ∈ t.names) (hm2 : f2 ∈ t.names)
    (hm3 : f3 ∈ t.names) (hmd0 : d0 ∈ t.names) (hmd1 : d1 ∈ t.names)
    (hmp1 : p1 ∈ t.names)
    (hdur : "duration" ∉ t.names) (hfpd : "fare_per_dist" ∉ t.names)
    (hfpp : "fare_per_passenger" ∉ t.names)
    (hf0d : f0 ≠ d0 ∧ f0 ≠ d1) (hf1d : f1 ≠ d0 ∧ f1 ≠ d1)
    (hf2d : f2 ≠ d0 ∧ f2 ≠ d1) (hf3d : f3 ≠ d0 ∧ f3 ≠ d1) :
    ∃ t', feature_engineering t fcols [d0, d1] disccols = some t' ∧
      (∃ c, t'.getCol f0 = some c ∧ ∀ x ∈ c, x ≠ some (Val.num 0)) ∧
      (∃ c, t'.getCol f3 = some c ∧ ∀ x ∈ c, x ≠ some (Val.num 0)) ∧
      (∃ ca cb, t'.getCol f1 = some ca ∧ t'.getCol f2 = some cb ∧
        ∀ q ∈ ca.zip cb, ∀ a : Val, q.1 = some a → q.2 ≠ some a) ∧
      t'.names =
        (t.names.filter fun nm => !(([d0, d1] : List String).contains nm)) ++
          ["duration", "fare_per_dist", "fare_per_passenger"] := by
  rcases featureBody_spec t fcols disccols f0 f1 f2 f3 d0 d1 p1 hf0 hf1 hf2
    hf3 hp1 hm0 hm1 hm2 hm3 hmd0 hmd1 hmp1 hdur hfpd hfpp hf0d hf1d hf2d
    hf3d with ⟨t', tF, cd0, cd1, cf3, cf1, cq1, hbody, _, _, _, _, _, _, _,
      _, _, hz0, hz3, hpair, hnames⟩
  refine ⟨t', ?_, hz0, hz3, hpair, hnames⟩
  unfold feature_engineering
  rw [hbody]
  rfl

/-- C5 (witness, at `exT5`). -/
theorem C5_feature_filters_and_columns_witness :
    ((["fare", "pickloc", "droploc", "total"].get? 0 = some "fare") ∧
      "fare" ∈ exT5.names ∧ "pick_dt" ∈ exT5.names ∧
      "duration" ∉ exT5.names ∧ ("fare" ≠ "pick_dt" ∧ "fare" ≠ "drop_dt")) ∧
    (∃ t', feature_engineering exT5 ["fare", "pickloc", "droploc", "total"]
        ["pick_dt", "drop_dt"] ["pc0", "pc"] = some t' ∧
      (∃ c, t'.getCol "fare" = some c ∧ ∀ x ∈ c, x ≠ some (Val.num 0)) ∧
      (∃ c, t'.getCol "total" = some c ∧ ∀ x ∈ c, x ≠ some (Val.num 0)) ∧
      (∃ ca cb, t'.getCol "pickloc" = some ca ∧
        t'.getCol "droploc" = some cb ∧
        ∀ q ∈ ca.zip cb, ∀ a : Val, q.1 = some a → q.2 ≠ some a) ∧
      t'.names = (exT5.names.filter fun nm =>
          !((["pick_dt", "drop_dt"] : List String).contains nm)) ++
        ["duration", "fare_per_dist", "fare_per_passenger"]) :=
  ⟨⟨by decide, by decide, by decide, by decide, by decide⟩,
    C5_feature_filters_and_columns exT5
      ["fare", "pickloc", "droploc", "total"] ["pc0", "pc"]
      "fare" "pickloc" "droploc" "total" "pick_dt" "drop_dt" "pc"
      (by decide) (by decide) (by decide) (by decide) (by decide)
      (by decide) (by decide) (by decide) (by decide) (by decide)
      (by decide) (by decide) (by decide) (by decide) (by decide)
      (by decide) (by decide) (by decide) (by decide)⟩

/-- C6: for the rows surviving the three filters, `feature_engineering`
derives `duration` as the datetime[1] − datetime[0] difference in
fractional minutes (total seconds over 60), `fare_per_dist` as
numeric[3] − numeric[1], and `fare_per_passenger` as
numeric[3] − discrete[1], all computed elementwise on the filtered
columns. -/
theorem C6_feature_derived_formulas (t : Table)
    (fcols disccols : List String) (f0 f1 f2 f3 d0 d1 p1 : String)
    (hf0 : fcols.get? 0 = some f0) (hf1 : fcols.get? 1 = some f1)
    (hf2 : fcols.get? 2 = some f2) (hf3 : fcols.get? 3 = some f3)
    (hp1 : disccols.get? 1 = some p1)
    (hm0 : f0 ∈ t.names) (hm1 : f1 ∈ t.names) (hm2 : f2 ∈ t.names)
    (hm3 : f3 ∈ t.names) (hmd0 : d0 ∈ t.names) (hmd1 : d1 ∈ t.names)
    (hmp1 : p1 ∈ t.names)
    (hdur : "duration" ∉ t.names) (hfpd : "fare_per_dist" ∉ t.names)
    (hfpp : "fare_per_passenger" ∉ t.names)
    (hf0d : f0 ≠ d0 ∧ f0 ≠ d1) (hf1d : f1 ≠ d0 ∧ f1 ≠ d1)
    (hf2d : f2 ≠ d0 ∧ f2 ≠ d1) (hf3d : f3 ≠ d0 ∧ f3 ≠ d1) :
    ∃ t' tF cd0 cd1 cf3 cf1 cq1,
      feature_engineering t fcols [d0, d1] disccols = some t' ∧
      rowFilters t f0 f3 f1 f2 = .ok tF ∧
      tF.getCol d0 = some cd0 ∧ tF.getCol d1 = some cd1 ∧
      tF.getCol f3 = some cf3 ∧ tF.getCol f1 = some cf1 ∧
      tF.getCol p1 = some cq1 ∧
      t'.getCol "duration" = some (List.zipWith durationCell cd1 cd0) ∧
      t'.getCol "fare_per_dist" = some (List.zipWith subCell cf3 cf1) ∧
      t'.getCol "fare_per_passenger" = some (List.zipWith subCell cf3 cq1) ∧
      (∀ a b : ℚ, durationCell (some (Val.dt a)) (some (Val.dt b)) =
        some (Val.num ((a - b) / 60))) ∧
      (∀ a b : ℚ, subCell (some (Val.num a)) (some (Val.num b)) =
        some (Val.num (a - b))) := by
  rcases featureBody_spec t fcols disccols f0 f1 f2 f3 d0 d1 p1 hf0 hf1 hf2
    hf3 hp1 hm0 hm1 hm2 hm3 hmd0 hmd1 hmp1 hdur hfpd hfpp hf0d hf1d hf2d
    hf3d with ⟨t', tF, cd0, cd1, cf3, cf1, cq1, hbody, hrf, h1, h2, h3, h4,
      h5, h6, h7, h8, _, _, _, _⟩
  refine ⟨t', tF, cd0, cd1, cf3, cf1, cq1, ?_, hrf, h1, h2, h3, h4, h5, h6,
    h7, h8, fun a b => rfl, fun a b => rfl⟩
  unfold feature_engineering
  rw [hbody]
  rfl

/-- C6 (witness, at `exT5`). -/
theorem C6_feature_derived_formulas_witness :
    ((["pick_dt", "drop_dt"].get? 1 = some "drop_dt") ∧
      "pc" ∈ exT5.names ∧ "fare_per_passenger" ∉ exT5.names) ∧
    (∃ t' tF cd0 cd1 cf3 cf1 cq1,
      feature_engineering exT5 ["fare", "pickloc", "droploc", "total"]
        ["pick_dt", "drop_dt"] ["pc0", "pc"] = some t' ∧
      rowFilters exT5 "fare" "total" "pickloc" "droploc" = .ok tF ∧
      tF.getCol "pick_dt" = some cd0 ∧ tF.getCol "drop_dt" = some cd1 ∧
      tF.getCol "total" = some cf3 ∧ tF.getCol "pickloc" = some cf1 ∧
      tF.getCol "pc" = some cq1 ∧
      t'.getCol "duration" = some (List.zipWith durationCell cd1 cd0) ∧
      t'.getCol "fare_per_dist" = some (List.zipWith subCell cf3 cf1) ∧
      t'.getCol "fare_per_passenger" = some (List.zipWith subCell cf3 cq1) ∧
      (∀ a b : ℚ, durationCell (some (Val.dt a)) (some (Val.dt b)) =
        some (Val.num ((a - b) / 60))) ∧
      (∀ a b : ℚ, subCell (some (Val.num a)) (some (Val.num b)) =
        some (Val.num (a - b)))) :=
  ⟨⟨by decide, by decide, by decide⟩,
    C6_feature_derived_formulas exT5
      ["fare", "pickloc", "droploc", "total"] ["pc0", "pc"]
      "fare" "pickloc" "droploc" "total" "pick_dt" "drop_dt" "pc"
      (by decide) (by decide) (by decide) (by decide) (by decide)
      (by decide) (by decide) (by decide) (by decide) (by decide)
      (by decide) (by decide) (by decide) (by decide) (by decide)
      (by decide) (by decide) (by decide) (by decide)⟩
